import Mathlib

/-!
# Frequency sensor input (`src/main/drivers/freq.c`)

A shallow embedding of the per-channel capture state machine of the frequency
sensor driver, and the properties of it that the specification states.

Conventions of the embedding:

* `uint16_t` fields are `Nat`; every store into one reduces modulo `2^16`.
* The `int32_t` field `period` is an `Int`; every `int` result is passed
  through `wrapInt32` (two's complement wrap-around).  Where a statement needs
  the C arithmetic to be free of signed overflow it says so by a hypothesis.
* `float` values (`freq`, `clock`) are exact rationals: in the handlers the rounding
  of the single precision arithmetic is not represented.  `freqGetERPM`, whose result
  is an integer, rounds its product and its quotient to binary32 (`roundFloat32`).
* The timer peripheral is outside the channel record.  Of `timerHardware` only
  the identity of the timer and the value `timerClock(tim)` are kept; the
  register writes `tim->PSC`, `tim->EGR` and the `DEBUG_SET` slots are write-only
  side channels and are left out.

The output table of `src/main/flight/servos.c` (`servoTable`) follows in the namespace
`Servos`, with the same conventions.
-/

namespace Freq

/-! ## Constants (freq.c lines 45-65) -/

/-- Lower end of the accepted frequency range, `FREQ_RANGE_MIN`. -/
def FREQ_RANGE_MIN : ℚ := 10

/-- Upper end of the accepted frequency range, `FREQ_RANGE_MAX`. -/
def FREQ_RANGE_MAX : ℚ := 5000

/-- Smallest prescaler, `FREQ_PRESCALER_MIN`. -/
def FREQ_PRESCALER_MIN : Nat := 0x0001

/-- Largest prescaler, `FREQ_PRESCALER_MAX`. -/
def FREQ_PRESCALER_MAX : Nat := 0x2000

/-- Lower prescaler shift point, `FREQ_SHIFT_MIN`. -/
def FREQ_SHIFT_MIN : Int := 0x1000

/-- Upper prescaler shift point, `FREQ_SHIFT_MAX`. -/
def FREQ_SHIFT_MAX : Int := 0x4000

/-- Initial value of the filtered period, `FREQ_PERIOD_INIT`. -/
def FREQ_PERIOD_INIT : Int := 0x2000

/-- Coefficient of the period filter, `FREQ_PERIOD_COEFF`. -/
def FREQ_PERIOD_COEFF : Int := 32

/-- Coefficient of the frequency filter, `FREQ_FILTER_COEFF`. -/
def FREQ_FILTER_COEFF : ℚ := 8

/-- Number of dead periods tolerated before a reset, `FREQ_MAX_MISSING`. -/
def FREQ_MAX_MISSING : Nat := 4

/-! ## Machine arithmetic -/

/-- Two's complement reduction of an integer to the range of `int32_t`. -/
def wrapInt32 (x : Int) : Int := (x + 2147483648) % 4294967296 - 2147483648

/-- Reduction of a natural number to the range of `uint16_t`. -/
def wrapUInt16 (x : Nat) : Nat := x % 65536

/-- Conversion of an `int` to `uint16_t` (reduction modulo `2^16`). -/
def intToUInt16 (x : Int) : Nat := (x % 65536).toNat

/-- The macro `FREQ_PERIOD_MIN(p)`, `((p)*3/4)` in `int` arithmetic. -/
def FREQ_PERIOD_MIN (p : Int) : Int := Int.tdiv (wrapInt32 (p * 3)) 4

/-- The macro `FREQ_PERIOD_MAX(p)`, `((p)*3/2)` in `int` arithmetic. -/
def FREQ_PERIOD_MAX (p : Int) : Int := Int.tdiv (wrapInt32 (p * 3)) 2

/-! ## Channel state (freq.c lines 83-99) -/

/-- The part of `timerHardware_t` the driver reads: the timer and its input clock,
the value returned by `timerClock(tim)`. -/
structure TimerHardware where
  tim : Nat
  timerClock : Nat
deriving DecidableEq

/-- The record `freqInputPort_t`. -/
structure FreqInputPort where
  freq : ℚ
  clock : ℚ
  period : Int
  capture : Nat
  missing : Nat
  prescaler : Nat
  overflows : Nat
  timerHardware : Option TimerHardware
deriving DecidableEq

/-- Value of `timerClock(input->timerHardware->tim)`.  The handlers are registered
only for bound channels; an unbound record yields `0` here. -/
def timerClock (hw : Option TimerHardware) : Nat :=
  match hw with
  | some t => t.timerClock
  | none => 0

/-! ## Operations -/

/-- The function `freqSetBaseClock` (lines 104-114); `prescaler` is its `uint32_t`
argument.  The callers pass `0x2000`, `p >> 1` with `p > 1` or `p << 1` with
`p < 0x2000`; only for a record with `prescaler = 0` is the argument 0, where the
rational quotient is 0 and the `float` quotient is not finite. -/
def freqSetBaseClock (input : FreqInputPort) (prescaler : Nat) : FreqInputPort :=
  { input with
    prescaler := wrapUInt16 prescaler
    capture := 0
    clock := (timerClock input.timerHardware : ℚ) / (prescaler : ℚ) }

/-- The function `freqReset` (lines 116-132). -/
def freqReset (input : FreqInputPort) : FreqInputPort :=
  freqSetBaseClock
    { input with freq := 0, period := FREQ_PERIOD_INIT, missing := 0, overflows := 0 }
    FREQ_PRESCALER_MAX

/-- Line 136 of `freqInputUpdate`: `UPDATE_PERIOD_FILTER(input, period)`, that is
`input->period += (period - input->period) / FREQ_PERIOD_COEFF`. -/
def freqPeriodFilter (input : FreqInputPort) (period : Nat) : FreqInputPort :=
  { input with
    period := wrapInt32 (input.period +
      Int.tdiv (wrapInt32 ((period : Int) - input.period)) FREQ_PERIOD_COEFF) }

/-- Lines 138-148 of `freqInputUpdate`: the prescaler change.  Returns the record
and the local `uint16_t period`. -/
def freqRebase (input : FreqInputPort) (period : Nat) : FreqInputPort × Nat :=
  if input.period < FREQ_SHIFT_MIN ∧ input.prescaler > FREQ_PRESCALER_MIN then
    let input1 := freqSetBaseClock input (input.prescaler >>> 1)
    ({ input1 with period := wrapInt32 (input1.period * 2) }, wrapUInt16 (period <<< 1))
  else if input.period > FREQ_SHIFT_MAX ∧ input.prescaler < FREQ_PRESCALER_MAX then
    let input1 := freqSetBaseClock input (input.prescaler <<< 1)
    ({ input1 with period := input1.period / 2 }, period >>> 1)
  else
    (input, period)

/-- Lines 150-156 of `freqInputUpdate`: signal conditioning and the frequency
filter `input->freq += (freq - input->freq) / FREQ_FILTER_COEFF`. -/
def freqConditioning (input : FreqInputPort) (period : Nat) : FreqInputPort :=
  if (period : Int) > FREQ_PERIOD_MIN input.period ∧
      (period : Int) < FREQ_PERIOD_MAX input.period then
    let freq : ℚ := input.clock / (period : ℚ)
    if freq > FREQ_RANGE_MIN ∧ freq < FREQ_RANGE_MAX then
      { input with freq := input.freq + (freq - input.freq) / FREQ_FILTER_COEFF }
    else
      input
  else
    input

/-- The function `freqInputUpdate` (lines 134-165). -/
def freqInputUpdate (input : FreqInputPort) (period : Nat) : FreqInputPort :=
  let r := freqRebase (freqPeriodFilter input period) period
  freqConditioning r.1 r.2

/-- The function `freqEdgeCallback` (lines 167-178). -/
def freqEdgeCallback (input : FreqInputPort) (capture : Nat) : FreqInputPort :=
  let input1 :=
    if input.capture ≠ 0 then
      freqInputUpdate input (intToUInt16 ((capture : Int) - (input.capture : Int)))
    else
      input
  { input1 with capture := wrapUInt16 capture, overflows := 0, missing := 0 }

/-- The function `freqOverflowCallback` (lines 180-197). -/
def freqOverflowCallback (input : FreqInputPort) : FreqInputPort :=
  let input1 := { input with overflows := wrapUInt16 (input.overflows + 1) }
  if input1.overflows > 1 then
    let input2 := { input1 with missing := wrapUInt16 (input1.missing + 1) }
    let input3 := if input2.missing > FREQ_MAX_MISSING then freqReset input2 else input2
    { input3 with overflows := 0, capture := 0 }
  else
    input1

/-- The guard under which `freqOverflowCallback` calls `freqReset` (lines 188 and 191). -/
def freqOverflowResets (input : FreqInputPort) : Bool :=
  decide (wrapUInt16 (input.overflows + 1) > 1 ∧
    wrapUInt16 (input.missing + 1) > FREQ_MAX_MISSING)

/-! ## Event sequences -/

/-- The two interrupts a channel receives. -/
inductive FreqEvent where
  | edge (capture : Nat)
  | overflow
deriving DecidableEq

/-- Dispatch of one interrupt to its handler. -/
def freqDispatch (input : FreqInputPort) : FreqEvent → FreqInputPort
  | FreqEvent.edge capture => freqEdgeCallback input capture
  | FreqEvent.overflow => freqOverflowCallback input

/-- The channel after a sequence of interrupts, oldest first. -/
def freqRun (input : FreqInputPort) (events : List FreqEvent) : FreqInputPort :=
  events.foldl freqDispatch input

/-- The record and the local `period` at line 150 of `freqInputUpdate`, after the period
filter and the prescaler change, when `freqEdgeCallback` runs with timestamp `capture` on
a channel that has a capture baseline. -/
def freqEdgeStage (input : FreqInputPort) (capture : Nat) : FreqInputPort × Nat :=
  freqRebase
    (freqPeriodFilter input (intToUInt16 ((capture : Int) - (input.capture : Int))))
    (intToUInt16 ((capture : Int) - (input.capture : Int)))

/-- The candidate frequency `input->clock / period` of line 152 for that edge. -/
def freqCandidate (input : FreqInputPort) (capture : Nat) : ℚ :=
  (freqEdgeStage input capture).1.clock / ((freqEdgeStage input capture).2 : ℚ)

/-- A record as the static array holds it before `freqInit`, bound to `hw`. -/
def freqBlank (hw : Option TimerHardware) : FreqInputPort :=
  { freq := 0, clock := 0, period := 0, capture := 0, missing := 0, prescaler := 0,
    overflows := 0, timerHardware := hw }

/-- A channel bound to a timer clocked at 1 MHz, as `freqInit` leaves it. -/
def freqExampleBaseline : FreqInputPort :=
  freqReset (freqBlank (some { tim := 1, timerClock := 1000000 }))

/-- A channel tracking a 100 Hz signal at prescaler 1 on the same timer. -/
def freqExampleTracking : FreqInputPort :=
  { freq := 100, clock := 1000000, period := 10000, capture := 500, missing := 0,
    prescaler := 1, overflows := 0, timerHardware := some { tim := 1, timerClock := 1000000 } }

/-- A channel at prescaler 256 whose next edge, 8192 ticks after the last, gives a
candidate of exactly 10 Hz. -/
def freqExampleSlow : FreqInputPort :=
  { freq := 100, clock := 81920, period := 8192, capture := 1000, missing := 0,
    prescaler := 256, overflows := 0,
    timerHardware := some { tim := 1, timerClock := 20971520 } }

/-- A channel at prescaler 1 tracking a signal near 1000 Hz (period 1000 ticks). -/
def freqExampleFast : FreqInputPort :=
  { freq := 900, clock := 1000000, period := 1000, capture := 500, missing := 0,
    prescaler := 1, overflows := 0, timerHardware := some { tim := 1, timerClock := 1000000 } }

/-- A channel at prescaler 2 whose filtered period is about to fall below
`FREQ_SHIFT_MIN`. -/
def freqExampleRebase : FreqInputPort :=
  { freq := 100, clock := 500000, period := 4100, capture := 500, missing := 0,
    prescaler := 2, overflows := 1, timerHardware := some { tim := 1, timerClock := 1000000 } }

/-- The edges at the timestamps `ts`, delivered in this order starting from `input`, each
have a capture baseline, pass the window test of line 151 and have the candidate
frequency `c`. -/
def freqAccepts (c : ℚ) : FreqInputPort → List Nat → Prop
  | _, [] => True
  | input, t :: ts =>
    input.capture ≠ 0 ∧
    (((freqEdgeStage input t).2 : Int) > FREQ_PERIOD_MIN (freqEdgeStage input t).1.period ∧
      ((freqEdgeStage input t).2 : Int) < FREQ_PERIOD_MAX (freqEdgeStage input t).1.period) ∧
    freqCandidate input t = c ∧
    freqAccepts c (freqEdgeCallback input t) ts

/-! ## The driver: port array, initialisation and read interface (lines 81, 101, 220-274) -/

/-- The part of `freqConfig_t` that `freqInit` reads: the pin tag of each port. -/
structure FreqConfig where
  ioTag : List Nat

/-- The globals of the driver: `freqTimerInitialized` and the array `freqInputPorts`.
The constant `FREQ_SENSOR_PORT_COUNT` is the length of the array. -/
structure FreqDriver where
  freqTimerInitialized : Bool
  freqInputPorts : List FreqInputPort

/-- The array size `FREQ_SENSOR_PORT_COUNT`. -/
def FREQ_SENSOR_PORT_COUNT (d : FreqDriver) : Nat := d.freqInputPorts.length

/-- The element `freqInputPorts[port]`. -/
def freqPort (d : FreqDriver) (port : Nat) : FreqInputPort :=
  d.freqInputPorts.getD port (freqBlank none)

/-- The globals at program start: zero-initialised statics, `n` ports. -/
def freqDriverZero (n : Nat) : FreqDriver :=
  { freqTimerInitialized := false, freqInputPorts := List.replicate n (freqBlank none) }

/-- The state `freqReset` leaves on a channel bound to the timer `hw`. -/
def freqBaseline (hw : TimerHardware) : FreqInputPort := freqReset (freqBlank (some hw))

/-- Rounding of a rational to the nearest integer, ties to the even one. -/
def roundNearestEven (q : ℚ) : Int :=
  if q - (⌊q⌋ : ℚ) < 1 / 2 then ⌊q⌋
  else if 1 / 2 < q - (⌊q⌋ : ℚ) then ⌊q⌋ + 1
  else if ⌊q⌋ % 2 = 0 then ⌊q⌋ else ⌊q⌋ + 1

/-- The exponent `e` of the unit in the last place `2^e` of binary32 at `x ≥ 0`:
24 significant bits, smallest exponent `-149`. -/
def float32Exponent (x : ℚ) : Int := max (Int.log 2 x - 23) (-149)

/-- Rounding of a rational to binary32, to nearest with ties to even, subnormal range
included; the overflow to infinity of values of magnitude `2^128` and more is not
represented. -/
def roundFloat32 (x : ℚ) : ℚ :=
  if 0 ≤ x then
    (roundNearestEven (x / (2 : ℚ) ^ float32Exponent x) : ℚ) * (2 : ℚ) ^ float32Exponent x
  else
    -((roundNearestEven (-x / (2 : ℚ) ^ float32Exponent (-x)) : ℚ) *
      (2 : ℚ) ^ float32Exponent (-x))

/-- Conversion of a `float` to `uint16_t`: truncation toward zero; the value is reduced
modulo `2^16` where C leaves the conversion undefined. -/
def floatToUInt16 (x : ℚ) : Nat := intToUInt16 (Int.tdiv x.num (x.den : Int))

/-- One iteration of the loop of `freqInit` (lines 223-245).  `timerAllocate tag index`
is the result of the call `timerAllocate(ioTag, OWNER_FREQ, RESOURCE_INDEX(port))`; the
configuration of the pin, the timer and the interrupt handlers acts on the peripherals
only. -/
def freqInitPort (timerAllocate : Nat → Nat → Option TimerHardware) (freqConfig : FreqConfig)
    (d : FreqDriver) (port : Nat) : FreqDriver :=
  let input := freqPort d port
  match timerAllocate (freqConfig.ioTag.getD port 0) port with
  | some timer =>
    let input1 := { input with timerHardware := some timer, freq := 0,
                               period := FREQ_PERIOD_INIT }
    { freqTimerInitialized := true,
      freqInputPorts := d.freqInputPorts.set port (freqReset input1) }
  | none => d

/-- The function `freqInit` (lines 220-247). -/
def freqInit (timerAllocate : Nat → Nat → Option TimerHardware) (freqConfig : FreqConfig)
    (d : FreqDriver) : FreqDriver :=
  (List.range (FREQ_SENSOR_PORT_COUNT d)).foldl (freqInitPort timerAllocate freqConfig) d

/-- The function `freqRead` (lines 249-255): the value returned and the globals after
the call. -/
def freqRead (d : FreqDriver) (port : Nat) : ℚ × FreqDriver :=
  if port < FREQ_SENSOR_PORT_COUNT d then
    ((freqPort d port).freq, d)
  else
    (0, d)

/-- The function `freqGetERPM` (lines 257-269): the value returned and the globals after
the call.  The product `freq * 60.0f` and the quotient by `100.0f` are each rounded to
binary32 before the conversion to `uint16_t`. -/
def freqGetERPM (d : FreqDriver) (port : Nat) : Nat × FreqDriver :=
  if port < FREQ_SENSOR_PORT_COUNT d then
    (floatToUInt16 (roundFloat32 (roundFloat32 ((freqPort d port).freq * 60) / 100)), d)
  else
    (0, d)

/-- The function `isFreqSensorInitialized` (lines 271-274). -/
def isFreqSensorInitialized (d : FreqDriver) : Bool × FreqDriver :=
  (d.freqTimerInitialized, d)

/-- An interrupt of the timer of port `port`: its handler runs on `freqInputPorts[port]`. -/
def freqDeliver (d : FreqDriver) (pe : Nat × FreqEvent) : FreqDriver :=
  if pe.1 < FREQ_SENSOR_PORT_COUNT d then
    { d with freqInputPorts := d.freqInputPorts.set pe.1 (freqDispatch (freqPort d pe.1) pe.2) }
  else
    d

/-- The globals after a sequence of interrupts, each with the port it belongs to. -/
def freqDeliverAll (d : FreqDriver) (events : List (Nat × FreqEvent)) : FreqDriver :=
  events.foldl freqDeliver d

/-- A driver with one port that holds a reading of 101 Hz. -/
def freqExampleDriver : FreqDriver :=
  { freqTimerInitialized := true,
    freqInputPorts := [{ freqExampleTracking with freq := 101 }] }

/-- A driver with one port that holds the binary32 reading `0x1.aaaaaap+3`, just below
`40 / 3` Hz. -/
def freqExampleDriverThird : FreqDriver :=
  { freqTimerInitialized := true,
    freqInputPorts := [{ freqExampleTracking with freq := 13981013 / 1048576 }] }

/-- An allocation that fails for the pin tag 0 (no pin) and otherwise yields a timer
clocked at 1 MHz. -/
def freqExampleAllocate (tag : Nat) (_index : Nat) : Option TimerHardware :=
  if tag = 0 then none else some { tim := tag, timerClock := 1000000 }

/-- A configuration of two ports: no pin on port 0, pin 5 on port 1. -/
def freqExampleConfig : FreqConfig := { ioTag := [0, 5] }

/-- The clock rate agrees with the prescaler: `clock = timerClock(tim) / prescaler`. -/
def FreqClockInv (s : FreqInputPort) : Prop :=
  s.clock = (timerClock s.timerHardware : ℚ) / (s.prescaler : ℚ)

/-- A channel at prescaler 4 whose filtered period is about to exceed `FREQ_SHIFT_MAX`. -/
def freqExampleUp : FreqInputPort :=
  { freq := 10, clock := 250000, period := 16400, capture := 500, missing := 0,
    prescaler := 4, overflows := 0, timerHardware := some { tim := 1, timerClock := 1000000 } }

/-- A slow signal: for each pair `(k, t)` of `blocks`, `k` overflow interrupts followed
by an edge with timestamp `t`. -/
def freqSlowEvents : List (Nat × Nat) → List FreqEvent
  | [] => []
  | b :: bs => List.replicate b.1 FreqEvent.overflow ++ FreqEvent.edge b.2 :: freqSlowEvents bs

/-- Whether some overflow interrupt of the sequence calls `freqReset`. -/
def freqRunResets (input : FreqInputPort) : List FreqEvent → Bool
  | [] => false
  | FreqEvent.edge capture :: events => freqRunResets (freqEdgeCallback input capture) events
  | FreqEvent.overflow :: events =>
    freqOverflowResets input || freqRunResets (freqOverflowCallback input) events

end Freq

/-! # Servo output table (`src/main/flight/servos.c`)

The function `servoTable` and what it reads.  The array `servo` is a function from the
index to the `int16_t` value; only the indices below `MAX_SUPPORTED_SERVOS` are used. -/

namespace Servos

/-- Two's complement reduction of an integer to the range of `int16_t`. -/
def wrapInt16 (x : Int) : Int := (x + 32768) % 65536 - 32768

/-- The fields of `servoParam_t` that `servoTable` reads. -/
structure ServoParam where
  min : Int
  max : Int
  middle : Int
  rate : Int
  forwardFromChannel : Nat

/-- What `servoTable` reads besides `servo[]`.  The constants, the inline function
`constrain` of `common/maths.h` and the mixers called in the `switch` are not in the
sources at hand and are parameters: `mixer` is the effect on `servo[]` of the `switch`
on `getMixerMode()` (lines 521-546: `servosTricopterMixer()`, `servoMixer()` or no call),
`rcData ch` is `rcData[ch]` as an `int16_t`. -/
structure ServoEnv where
  MAX_SUPPORTED_SERVOS : Nat
  SERVO_GIMBAL_PITCH : Nat
  SERVO_GIMBAL_ROLL : Nat
  CHANNEL_FORWARDING_DISABLED : Nat
  servoParams : Nat → ServoParam
  channelCount : Nat
  rcData : Nat → Int
  featureServoTilt : Bool
  camStabActive : Bool
  gimbalMixTilt : Bool
  attitudePitch : Int
  attitudeRoll : Int
  mixer : (Nat → Int) → (Nat → Int)
  constrain : Int → Int → Int → Int

/-- The assignment `servo[i] = v`. -/
def servoSet (servo : Nat → Int) (i : Nat) (v : Int) : Nat → Int :=
  fun j => if j = i then v else servo j

/-- The function `determineServoMiddleOrForwardFromChannel` (lines 202-211). -/
def determineServoMiddleOrForwardFromChannel (env : ServoEnv) (servoIndex : Nat) : Int :=
  let channelToForwardFrom := (env.servoParams servoIndex).forwardFromChannel
  if channelToForwardFrom ≠ env.CHANNEL_FORWARDING_DISABLED ∧
      channelToForwardFrom < env.channelCount then
    env.rcData channelToForwardFrom
  else
    (env.servoParams servoIndex).middle

/-- Lines 548-563 of `servoTable`: camera stabilisation. -/
def servoCameraStabilisation (env : ServoEnv) (servo : Nat → Int) : Nat → Int :=
  if env.featureServoTilt then
    let servo1 := servoSet servo env.SERVO_GIMBAL_PITCH
      (determineServoMiddleOrForwardFromChannel env env.SERVO_GIMBAL_PITCH)
    let servo2 := servoSet servo1 env.SERVO_GIMBAL_ROLL
      (determineServoMiddleOrForwardFromChannel env env.SERVO_GIMBAL_ROLL)
    let ratePitch := (env.servoParams env.SERVO_GIMBAL_PITCH).rate
    let rateRoll := (env.servoParams env.SERVO_GIMBAL_ROLL).rate
    if env.camStabActive then
      if env.gimbalMixTilt then
        let servo3 := servoSet servo2 env.SERVO_GIMBAL_PITCH
          (wrapInt16 (Freq.wrapInt32 (servo2 env.SERVO_GIMBAL_PITCH -
            Freq.wrapInt32 (Int.tdiv (Freq.wrapInt32 (-ratePitch * env.attitudePitch)) 50 -
              Int.tdiv (Freq.wrapInt32 (rateRoll * env.attitudeRoll)) 50))))
        servoSet servo3 env.SERVO_GIMBAL_ROLL
          (wrapInt16 (Freq.wrapInt32 (servo3 env.SERVO_GIMBAL_ROLL +
            Freq.wrapInt32 (Int.tdiv (Freq.wrapInt32 (-ratePitch * env.attitudePitch)) 50 +
              Int.tdiv (Freq.wrapInt32 (rateRoll * env.attitudeRoll)) 50))))
      else
        let servo3 := servoSet servo2 env.SERVO_GIMBAL_PITCH
          (wrapInt16 (Freq.wrapInt32 (servo2 env.SERVO_GIMBAL_PITCH +
            Int.tdiv (Freq.wrapInt32 (ratePitch * env.attitudePitch)) 50)))
        servoSet servo3 env.SERVO_GIMBAL_ROLL
          (wrapInt16 (Freq.wrapInt32 (servo3 env.SERVO_GIMBAL_ROLL +
            Int.tdiv (Freq.wrapInt32 (rateRoll * env.attitudeRoll)) 50)))
    else
      servo2
  else
    servo

/-- One iteration of the loop of lines 567-569:
`servo[i] = constrain(servo[i], servoParams(i)->min, servoParams(i)->max)`. -/
def servoConstrainStep (env : ServoEnv) (servo : Nat → Int) (i : Nat) : Nat → Int :=
  servoSet servo i
    (wrapInt16 (env.constrain (servo i) (env.servoParams i).min (env.servoParams i).max))

/-- The function `servoTable` (lines 518-570). -/
def servoTable (env : ServoEnv) (servo : Nat → Int) : Nat → Int :=
  (List.range env.MAX_SUPPORTED_SERVOS).foldl (servoConstrainStep env)
    (servoCameraStabilisation env (env.mixer servo))

/-- An environment with eight servos limited to `[1000, 2000]`, camera stabilisation
active, a mixer that leaves 5000 in every entry, and `constrain` as a clamp. -/
def servoExampleEnv : ServoEnv :=
  { MAX_SUPPORTED_SERVOS := 8, SERVO_GIMBAL_PITCH := 0, SERVO_GIMBAL_ROLL := 1,
    CHANNEL_FORWARDING_DISABLED := 255,
    servoParams := fun _ =>
      { min := 1000, max := 2000, middle := 1500, rate := 100, forwardFromChannel := 255 },
    channelCount := 8, rcData := fun _ => 1500, featureServoTilt := true,
    camStabActive := true, gimbalMixTilt := false, attitudePitch := 900, attitudeRoll := -900,
    mixer := fun _ _ => 5000,
    constrain := fun amt low high => if amt < low then low else if amt > high then high else amt }

end Servos

namespace Freq

/-! ## Predicates and projections used in the proofs -/

/-- Being a power of two between `FREQ_PRESCALER_MIN` and `FREQ_PRESCALER_MAX`. -/
def IsPrescaler (n : Nat) : Prop := ∃ k : Nat, k ≤ 13 ∧ n = 2 ^ k

/-- The invariant of the channel record between two handler invocations. -/
def FreqInv (s : FreqInputPort) : Prop :=
  IsPrescaler s.prescaler ∧ 1 ≤ s.period ∧ s.period ≤ 65535 ∧
  (s.prescaler > 1 → 0x1000 ≤ s.period) ∧ (s.prescaler < 0x2000 → s.period ≤ 0x4000)

/-- The integer part of the record: `period`, `prescaler`, `capture`. -/
def freqCore (s : FreqInputPort) : Int × Nat × Nat := (s.period, s.prescaler, s.capture)

/-- The effect of `freqEdgeCallback` on the integer part of the record
(see `freqCore_edge`); it does not depend on the rational fields. -/
def freqCoreEdge (c : Int × Nat × Nat) (t : Nat) : Int × Nat × Nat :=
  if c.2.2 ≠ 0 then
    let p1 := wrapInt32 (c.1 +
      Int.tdiv (wrapInt32 ((intToUInt16 ((t : Int) - (c.2.2 : Int)) : Int) - c.1)) 32)
    if p1 < 0x1000 ∧ c.2.1 > 1 then
      (wrapInt32 (p1 * 2), wrapUInt16 (c.2.1 >>> 1), wrapUInt16 t)
    else if p1 > 0x4000 ∧ c.2.1 < 0x2000 then
      (p1 / 2, wrapUInt16 (c.2.1 <<< 1), wrapUInt16 t)
    else (p1, c.2.1, wrapUInt16 t)
  else (c.1, c.2.1, wrapUInt16 t)

/-! ## Arithmetic helpers -/

theorem wrapInt32_of_range {x : Int} (h1 : -2147483648 ≤ x) (h2 : x < 2147483648) :
    wrapInt32 x = x := by
  unfold wrapInt32
  omega

theorem tdiv_cases (a b : Int) (hb : 0 < b) :
    (0 ≤ a ∧ Int.tdiv a b = a / b) ∨ (a < 0 ∧ Int.tdiv a b = -((-a) / b)) := by
  rcases le_or_lt 0 a with h | h
  · exact Or.inl ⟨h, Int.tdiv_eq_ediv h (le_of_lt hb)⟩
  · refine Or.inr ⟨h, ?_⟩
    have h1 : Int.tdiv (-a) b = (-a) / b := Int.tdiv_eq_ediv (by omega) (le_of_lt hb)
    rw [← h1, Int.neg_tdiv, neg_neg]

theorem intToUInt16_lt (x : Int) : intToUInt16 x < 65536 := by
  unfold intToUInt16
  omega

theorem isPrescaler_bounds {n : Nat} (h : IsPrescaler n) : 1 ≤ n ∧ n ≤ 0x2000 := by
  obtain ⟨k, hk, rfl⟩ := h
  interval_cases k <;> simp

theorem isPrescaler_halve {n : Nat} (h : IsPrescaler n) (h1 : n > 1) :
    IsPrescaler (wrapUInt16 (n >>> 1)) ∧ wrapUInt16 (n >>> 1) * 2 = n := by
  obtain ⟨k, hk, rfl⟩ := h
  cases k with
  | zero => simp at h1
  | succ j =>
    have hj : 2 ^ j ≤ 2 ^ 12 := Nat.pow_le_pow_right (by decide) (by omega)
    have e : wrapUInt16 (2 ^ (j + 1) >>> 1) = 2 ^ j := by
      unfold wrapUInt16
      rw [Nat.shiftRight_eq_div_pow, pow_succ]
      norm_num at hj ⊢
      omega
    rw [e]
    exact ⟨⟨j, by omega, rfl⟩, by rw [pow_succ]⟩

theorem isPrescaler_double {n : Nat} (h : IsPrescaler n) (h1 : n < 0x2000) :
    IsPrescaler (wrapUInt16 (n <<< 1)) ∧ wrapUInt16 (n <<< 1) = n * 2 := by
  obtain ⟨k, hk, rfl⟩ := h
  have hk12 : k ≤ 12 := by
    by_contra hc
    have : k = 13 := by omega
    subst this
    simp at h1
  have hj : 2 ^ k ≤ 2 ^ 12 := Nat.pow_le_pow_right (by decide) hk12
  have e : wrapUInt16 (2 ^ k <<< 1) = 2 ^ (k + 1) := by
    unfold wrapUInt16
    rw [Nat.shiftLeft_eq, pow_succ]
    norm_num at hj ⊢
    omega
  rw [e]
  exact ⟨⟨k + 1, by omega, rfl⟩, by rw [pow_succ]⟩

/-! ## Frame lemmas for the stages of `freqInputUpdate` -/

theorem freqConditioning_frame (input : FreqInputPort) (period : Nat) :
    (freqConditioning input period).period = input.period ∧
    (freqConditioning input period).prescaler = input.prescaler ∧
    (freqConditioning input period).clock = input.clock ∧
    (freqConditioning input period).capture = input.capture ∧
    (freqConditioning input period).missing = input.missing ∧
    (freqConditioning input period).overflows = input.overflows ∧
    (freqConditioning input period).timerHardware = input.timerHardware := by
  unfold freqConditioning
  split
  · dsimp only
    split <;> simp
  · simp

theorem freqPeriodFilter_period {input : FreqInputPort} {period : Nat}
    (h1 : 1 ≤ input.period) (h2 : input.period ≤ 65535) (h3 : period < 65536) :
    (freqPeriodFilter input period).period =
        input.period + Int.tdiv ((period : Int) - input.period) 32 ∧
    input.period - input.period / 32 ≤ (freqPeriodFilter input period).period ∧
    (freqPeriodFilter input period).period ≤ input.period + (65535 - input.period) / 32 ∧
    1 ≤ (freqPeriodFilter input period).period := by
  unfold freqPeriodFilter FREQ_PERIOD_COEFF
  dsimp only
  rw [wrapInt32_of_range (x := (period : Int) - input.period) (by omega) (by omega)]
  rcases tdiv_cases ((period : Int) - input.period) 32 (by decide) with ⟨h, e⟩ | ⟨h, e⟩
  · rw [e, wrapInt32_of_range (by omega) (by omega)]
    refine ⟨rfl, by omega, by omega, by omega⟩
  · rw [e, wrapInt32_of_range (by omega) (by omega)]
    refine ⟨rfl, by omega, by omega, by omega⟩

theorem freqInv_reset (s : FreqInputPort) : FreqInv (freqReset s) := by
  unfold FreqInv freqReset freqSetBaseClock FREQ_PRESCALER_MAX FREQ_PERIOD_INIT wrapUInt16
  refine ⟨⟨13, le_refl _, by norm_num⟩, ?_, ?_, ?_, ?_⟩ <;> norm_num

theorem freqInv_rebase {s : FreqInputPort} {period : Nat}
    (hp : IsPrescaler s.prescaler) (h1 : 1 ≤ s.period) (h2 : s.period ≤ 65535)
    (hlo : s.prescaler > 1 → 0x1000 - 0x1000 / 32 ≤ s.period)
    (hhi : s.prescaler < 0x2000 → s.period ≤ 0x4000 + (65535 - 0x4000) / 32) :
    FreqInv (freqRebase s period).1 := by
  unfold freqRebase FREQ_SHIFT_MIN FREQ_SHIFT_MAX FREQ_PRESCALER_MIN FREQ_PRESCALER_MAX
  split
  · rename_i hc
    obtain ⟨q, -⟩ := isPrescaler_halve hp hc.2
    have b := isPrescaler_bounds q
    have := hlo hc.2
    unfold FreqInv freqSetBaseClock
    dsimp only
    rw [wrapInt32_of_range (by omega) (by omega)]
    exact ⟨q, by omega, by omega, by omega, by omega⟩
  · split
    · rename_i hc
      obtain ⟨q, -⟩ := isPrescaler_double hp hc.2
      have b := isPrescaler_bounds q
      have := hhi hc.2
      unfold FreqInv freqSetBaseClock
      dsimp only
      exact ⟨q, by omega, by omega, by omega, by omega⟩
    · rename_i hc1 hc2
      have b := isPrescaler_bounds hp
      unfold FreqInv
      dsimp only
      exact ⟨hp, h1, h2, by omega, by omega⟩

theorem freqInv_inputUpdate {s : FreqInputPort} {period : Nat}
    (h : FreqInv s) (hper : period < 65536) : FreqInv (freqInputUpdate s period) := by
  obtain ⟨hp, h1, h2, hlo, hhi⟩ := h
  obtain ⟨-, f1, f2, f3⟩ := freqPeriodFilter_period h1 h2 hper
  have hpre : (freqPeriodFilter s period).prescaler = s.prescaler := rfl
  have key : FreqInv (freqRebase (freqPeriodFilter s period) period).1 := by
    apply freqInv_rebase
    · rw [hpre]; exact hp
    · exact f3
    · omega
    · rw [hpre]; intro hc; have := hlo hc; omega
    · rw [hpre]; intro hc; have := hhi hc; omega
  obtain ⟨c1, c2, -⟩ := freqConditioning_frame
    (freqRebase (freqPeriodFilter s period) period).1
    (freqRebase (freqPeriodFilter s period) period).2
  unfold freqInputUpdate FreqInv
  dsimp only
  rw [c1, c2]
  exact key

theorem freqInv_edge {s : FreqInputPort} (h : FreqInv s) (capture : Nat) :
    FreqInv (freqEdgeCallback s capture) := by
  unfold freqEdgeCallback
  by_cases hc : s.capture ≠ 0
  · have := freqInv_inputUpdate h (intToUInt16_lt ((capture : Int) - (s.capture : Int)))
    simpa [hc, FreqInv] using this
  · simpa [hc, FreqInv] using h

theorem freqInv_overflow {s : FreqInputPort} (h : FreqInv s) :
    FreqInv (freqOverflowCallback s) := by
  unfold freqOverflowCallback
  dsimp only
  split
  · split
    · have := freqInv_reset
        { s with overflows := wrapUInt16 (s.overflows + 1),
                 missing := wrapUInt16 (s.missing + 1) }
      simpa [FreqInv] using this
    · simpa [FreqInv] using h
  · simpa [FreqInv] using h

theorem freqInv_run (s : FreqInputPort) (events : List FreqEvent) (h : FreqInv s) :
    FreqInv (freqRun s events) := by
  unfold freqRun
  induction events generalizing s with
  | nil => exact h
  | cons e es ih =>
    rw [List.foldl_cons]
    apply ih
    cases e with
    | edge capture => exact freqInv_edge h capture
    | overflow => exact freqInv_overflow h

theorem freqCore_fields {s : FreqInputPort} {p : Int} {q c : Nat}
    (h : freqCore s = (p, q, c)) : s.period = p ∧ s.prescaler = q := by
  unfold freqCore at h
  exact ⟨(Prod.mk.inj h).1, (Prod.mk.inj (Prod.mk.inj h).2).1⟩

theorem freqCore_edge (s : FreqInputPort) (t : Nat) :
    freqCore (freqEdgeCallback s t) = freqCoreEdge (freqCore s) t := by
  unfold freqEdgeCallback freqCoreEdge freqCore
  by_cases hc : s.capture ≠ 0
  · obtain ⟨c1, c2, -⟩ := freqConditioning_frame
      (freqRebase (freqPeriodFilter s (intToUInt16 ((t : Int) - (s.capture : Int))))
        (intToUInt16 ((t : Int) - (s.capture : Int)))).1
      (freqRebase (freqPeriodFilter s (intToUInt16 ((t : Int) - (s.capture : Int))))
        (intToUInt16 ((t : Int) - (s.capture : Int)))).2
    simp only [hc, if_true, freqInputUpdate, ne_eq, not_false_eq_true, c1, c2]
    unfold freqRebase freqPeriodFilter freqSetBaseClock FREQ_SHIFT_MIN FREQ_SHIFT_MAX
      FREQ_PRESCALER_MIN FREQ_PRESCALER_MAX FREQ_PERIOD_COEFF
    dsimp only
    split
    · rfl
    · split <;> rfl
  · simp only [hc, if_false]

theorem freqCore_run_edges (s : FreqInputPort) (ts : List Nat) :
    freqCore (freqRun s (ts.map FreqEvent.edge)) = ts.foldl freqCoreEdge (freqCore s) := by
  unfold freqRun
  induction ts generalizing s with
  | nil => rfl
  | cons t ts ih =>
    rw [List.map_cons, List.foldl_cons, List.foldl_cons, ih, freqDispatch, freqCore_edge]

/-! ## Reachable states: prescaler and filtered period -/

/-- C1: in every state reached from the reset baseline by any sequence of edge and
overflow interrupts, `prescaler` is a power of two with `1 ≤ prescaler ≤ 0x2000`. -/
theorem prescaler_power_of_two_reachable (s0 : FreqInputPort) (events : List FreqEvent) :
    (∃ k : Nat, k ≤ 13 ∧ (freqRun (freqReset s0) events).prescaler = 2 ^ k) ∧
    FREQ_PRESCALER_MIN ≤ (freqRun (freqReset s0) events).prescaler ∧
    (freqRun (freqReset s0) events).prescaler ≤ FREQ_PRESCALER_MAX := by
  have h := freqInv_run (freqReset s0) events (freqInv_reset s0)
  exact ⟨h.1, isPrescaler_bounds h.1⟩

/-- C2, counterexample: the filtered period leaves `[0x1000, 0x4000)` between handler
invocations.  From the reset baseline, a first edge at tick 1 and six more edges 60000
ticks apart leave `period = 17175` at the largest prescaler; at prescaler `0x1000` the
period can rest on `0x4000` itself; 308 edges one tick apart leave `period = 4035` at
the smallest prescaler. -/
theorem period_window_counterexample :
    ((freqRun freqExampleBaseline
        ([1, 60001, 54465, 48929, 43393, 37857, 32321].map FreqEvent.edge)).period = 17175 ∧
      (freqRun freqExampleBaseline
        ([1, 60001, 54465, 48929, 43393, 37857, 32321].map FreqEvent.edge)).prescaler
          = 0x2000) ∧
    ((freqRun freqExampleBaseline
        (((List.range 23).map (fun k => k + 1) ++ [22, 21, 20, 19, 59183]).map
          FreqEvent.edge)).period = 0x4000 ∧
      (freqRun freqExampleBaseline
        (((List.range 23).map (fun k => k + 1) ++ [22, 21, 20, 19, 59183]).map
          FreqEvent.edge)).prescaler = 0x1000) ∧
    ((freqRun freqExampleBaseline
        (((List.range 308).map (fun k => k + 1)).map FreqEvent.edge)).period = 4035 ∧
      (freqRun freqExampleBaseline
        (((List.range 308).map (fun k => k + 1)).map FreqEvent.edge)).prescaler = 1) := by
  have hA : freqCore (freqRun freqExampleBaseline
      ([1, 60001, 54465, 48929, 43393, 37857, 32321].map FreqEvent.edge))
      = (17175, 0x2000, 32321) := by
    rw [freqCore_run_edges]; decide!
  have hB : freqCore (freqRun freqExampleBaseline
      (((List.range 23).map (fun k => k + 1) ++ [22, 21, 20, 19, 59183]).map FreqEvent.edge))
      = (0x4000, 0x1000, 59183) := by
    rw [freqCore_run_edges]; decide!
  have hC : freqCore (freqRun freqExampleBaseline
      (((List.range 308).map (fun k => k + 1)).map FreqEvent.edge)) = (4035, 1, 308) := by
    rw [freqCore_run_edges]; decide!
  exact ⟨freqCore_fields hA, freqCore_fields hB, freqCore_fields hC⟩

/-- C2, amended: in every state reached from the reset baseline, between handler
invocations, the filtered period is at least `0x1000` unless the prescaler is at its
minimum, and at most `0x4000` unless the prescaler is at its maximum. -/
theorem period_window_unless_pinned (s0 : FreqInputPort) (events : List FreqEvent) :
    ((freqRun (freqReset s0) events).prescaler > FREQ_PRESCALER_MIN →
      FREQ_SHIFT_MIN ≤ (freqRun (freqReset s0) events).period) ∧
    ((freqRun (freqReset s0) events).prescaler < FREQ_PRESCALER_MAX →
      (freqRun (freqReset s0) events).period ≤ FREQ_SHIFT_MAX) := by
  have h := freqInv_run (freqReset s0) events (freqInv_reset s0)
  exact ⟨h.2.2.2.1, h.2.2.2.2⟩

/-! ## The overflow watchdog -/

theorem freqRun_append (s : FreqInputPort) (l1 l2 : List FreqEvent) :
    freqRun s (l1 ++ l2) = freqRun (freqRun s l1) l2 := by
  unfold freqRun
  exact List.foldl_append _ _ _ _

theorem overflow_run_small (s : FreqInputPort) (h1 : s.overflows = 0) (h2 : s.missing = 0)
    (k : Nat) (hk : k ≤ 9) :
    (freqRun s (List.replicate k FreqEvent.overflow)).overflows = k % 2 ∧
    (freqRun s (List.replicate k FreqEvent.overflow)).missing = k / 2 ∧
    (freqRun s (List.replicate k FreqEvent.overflow)).freq = s.freq ∧
    (freqRun s (List.replicate k FreqEvent.overflow)).period = s.period ∧
    (freqRun s (List.replicate k FreqEvent.overflow)).prescaler = s.prescaler ∧
    (freqRun s (List.replicate k FreqEvent.overflow)).clock = s.clock ∧
    (freqRun s (List.replicate k FreqEvent.overflow)).timerHardware = s.timerHardware := by
  interval_cases k <;>
    simp [freqRun, List.replicate, freqDispatch, freqOverflowCallback, wrapUInt16, h1, h2,
      FREQ_MAX_MISSING]

theorem freqOverflowCallback_of_resets {s : FreqInputPort}
    (h : freqOverflowResets s = true) : freqOverflowCallback s = freqReset s := by
  unfold freqOverflowResets at h
  have h' := of_decide_eq_true h
  unfold freqOverflowCallback
  dsimp only
  rw [if_pos h'.1, if_pos h'.2]
  rfl

theorem freqReset_eq (s : FreqInputPort) :
    freqReset s =
      { freq := 0, clock := (timerClock s.timerHardware : ℚ) / 0x2000, period := 0x2000,
        capture := 0, missing := 0, prescaler := 0x2000, overflows := 0,
        timerHardware := s.timerHardware } := by
  unfold freqReset freqSetBaseClock FREQ_PRESCALER_MAX FREQ_PERIOD_INIT wrapUInt16
  norm_num

theorem freqEdgeCallback_of_capture {s : FreqInputPort} (t : Nat) (hc : s.capture ≠ 0) :
    freqEdgeCallback s t =
      { freqInputUpdate s (intToUInt16 ((t : Int) - (s.capture : Int))) with
        capture := wrapUInt16 t, overflows := 0, missing := 0 } := by
  unfold freqEdgeCallback
  rw [if_pos hc]

theorem freqEdgeCallback_of_sentinel {s : FreqInputPort} (t : Nat) (hc : s.capture = 0) :
    freqEdgeCallback s t = { s with capture := wrapUInt16 t, overflows := 0, missing := 0 } := by
  unfold freqEdgeCallback
  rw [if_neg (not_not.mpr hc)]

theorem freqEdgeCallback_bookkeeping (s : FreqInputPort) (t : Nat) :
    (freqEdgeCallback s t).capture = wrapUInt16 t ∧
    (freqEdgeCallback s t).overflows = 0 ∧ (freqEdgeCallback s t).missing = 0 := by
  by_cases hc : s.capture = 0
  · rw [freqEdgeCallback_of_sentinel t hc]
    exact ⟨rfl, rfl, rfl⟩
  · rw [freqEdgeCallback_of_capture t hc]
    exact ⟨rfl, rfl, rfl⟩

theorem freqRun_snoc_edge (s : FreqInputPort) (events : List FreqEvent) (t : Nat) :
    freqRun s (events ++ [FreqEvent.edge t]) = freqEdgeCallback (freqRun s events) t := by
  rw [freqRun_append]
  rfl

theorem freqRun_snoc_overflow (s : FreqInputPort) (events : List FreqEvent) :
    freqRun s (events ++ [FreqEvent.overflow]) = freqOverflowCallback (freqRun s events) := by
  rw [freqRun_append]
  rfl

theorem freqRebase_timerHardware (s : FreqInputPort) (period : Nat) :
    (freqRebase s period).1.timerHardware = s.timerHardware := by
  unfold freqRebase freqSetBaseClock
  dsimp only
  split
  · rfl
  · split <;> rfl

theorem freqEdgeCallback_timerHardware (s : FreqInputPort) (t : Nat) :
    (freqEdgeCallback s t).timerHardware = s.timerHardware := by
  by_cases hc : s.capture = 0
  · rw [freqEdgeCallback_of_sentinel t hc]
  · rw [freqEdgeCallback_of_capture t hc]
    unfold freqInputUpdate
    dsimp only
    rw [(freqConditioning_frame _ _).2.2.2.2.2.2, freqRebase_timerHardware]
    rfl

theorem freqOverflowCallback_timerHardware (s : FreqInputPort) :
    (freqOverflowCallback s).timerHardware = s.timerHardware := by
  unfold freqOverflowCallback
  dsimp only
  split
  · split
    · rfl
    · rfl
  · rfl

theorem freqRun_timerHardware (s : FreqInputPort) (events : List FreqEvent) :
    (freqRun s events).timerHardware = s.timerHardware := by
  unfold freqRun
  induction events generalizing s with
  | nil => rfl
  | cons e es ih =>
    rw [List.foldl_cons, ih]
    cases e with
    | edge capture => exact freqEdgeCallback_timerHardware s capture
    | overflow => exact freqOverflowCallback_timerHardware s

/-- C3: from a state with `overflows = 0` and `missing = 0`, among `n` consecutive
overflow interrupts one calls `freqReset` if and only if `n ≥ 10` (five dead periods of
two overflows each); after fewer than ten, `freq` and `period` still hold their value. -/
theorem overflow_reset_iff_ten (s : FreqInputPort) (h1 : s.overflows = 0)
    (h2 : s.missing = 0) (n : Nat) :
    ((∃ k : Nat, k < n ∧
        freqOverflowResets (freqRun s (List.replicate k FreqEvent.overflow)) = true) ↔
      2 * (FREQ_MAX_MISSING + 1) ≤ n) ∧
    (n < 10 →
      (freqRun s (List.replicate n FreqEvent.overflow)).freq = s.freq ∧
      (freqRun s (List.replicate n FreqEvent.overflow)).period = s.period) ∧
    freqRun s (List.replicate 10 FreqEvent.overflow) = freqReset s := by
  have key : ∀ k : Nat, k ≤ 9 →
      (freqOverflowResets (freqRun s (List.replicate k FreqEvent.overflow)) = true ↔
        k = 9) := by
    intro k hk
    obtain ⟨e1, e2, -⟩ := overflow_run_small s h1 h2 k hk
    unfold freqOverflowResets
    rw [e1, e2]
    unfold wrapUInt16 FREQ_MAX_MISSING
    interval_cases k <;> simp
  refine ⟨⟨?_, ?_⟩, ?_, ?_⟩
  · rintro ⟨k, hk, hr⟩
    unfold FREQ_MAX_MISSING
    by_contra hn
    have h9 : k = 9 := (key k (by omega)).1 hr
    omega
  · intro hn
    unfold FREQ_MAX_MISSING at hn
    exact ⟨9, by omega, (key 9 (le_refl _)).2 rfl⟩
  · intro hn
    obtain ⟨-, -, e3, e4, -⟩ := overflow_run_small s h1 h2 n (by omega)
    exact ⟨e3, e4⟩
  · have e : List.replicate 10 FreqEvent.overflow =
        List.replicate 9 FreqEvent.overflow ++ [FreqEvent.overflow] := rfl
    have hw := (overflow_run_small s h1 h2 9 (le_refl _)).2.2.2.2.2.2
    rw [e, freqRun_snoc_overflow]
    rw [freqOverflowCallback_of_resets ((key 9 (le_refl _)).2 rfl), freqReset_eq, freqReset_eq,
      hw]

/-- C3, witness: a tracking channel (100 Hz) keeps its reading through nine overflows. -/
theorem overflow_reset_iff_ten_witness :
    freqExampleTracking.overflows = 0 ∧ freqExampleTracking.missing = 0 ∧
    (freqRun freqExampleTracking (List.replicate 9 FreqEvent.overflow)).freq = 100 ∧
    freqRun freqExampleTracking (List.replicate 10 FreqEvent.overflow) =
      freqReset freqExampleTracking :=
  ⟨rfl, rfl, ((overflow_reset_iff_ten freqExampleTracking rfl rfl 9).2.1 (by decide)).1,
    (overflow_reset_iff_ten freqExampleTracking rfl rfl 9).2.2⟩

/-! ## Channel reset -/

/-- C4: the reset performed by the watchdog does not depend on the state it starts from:
it leaves `freq = 0`, `period = 0x2000`, `missing = 0`, `overflows = 0`,
`prescaler = 0x2000`, `clock = timerClock / 0x2000`, `capture = 0` and keeps the timer
binding; it is the state `freqReset` gives at initialisation, and a reset that follows
any further interrupts gives that same state again. -/
theorem watchdog_reset_state_independent (s : FreqInputPort)
    (h : freqOverflowResets s = true) :
    freqOverflowCallback s =
      { freq := 0, clock := (timerClock s.timerHardware : ℚ) / 0x2000, period := 0x2000,
        capture := 0, missing := 0, prescaler := 0x2000, overflows := 0,
        timerHardware := s.timerHardware } ∧
    (∀ s0 : FreqInputPort, s0.timerHardware = s.timerHardware →
      freqOverflowCallback s = freqReset s0) ∧
    (∀ events : List FreqEvent,
      freqOverflowResets (freqRun (freqOverflowCallback s) events) = true →
      freqOverflowCallback (freqRun (freqOverflowCallback s) events) =
        freqOverflowCallback s) := by
  refine ⟨?_, ?_, ?_⟩
  · rw [freqOverflowCallback_of_resets h, freqReset_eq]
  · intro s0 h0
    rw [freqOverflowCallback_of_resets h, freqReset_eq, freqReset_eq, h0]
  · intro events h2
    rw [freqOverflowCallback_of_resets h2, freqReset_eq, freqRun_timerHardware,
      freqOverflowCallback_timerHardware, freqOverflowCallback_of_resets h, freqReset_eq]

/-- C4, witness: a tracking channel is reset, then receives edges at ticks 1000 and 9000
and ten overflows; the first and the last of these events leave the same state. -/
theorem watchdog_reset_state_independent_witness :
    freqOverflowResets { freqExampleTracking with overflows := 1, missing := 4 } = true ∧
    freqOverflowCallback
        (freqRun (freqOverflowCallback { freqExampleTracking with overflows := 1, missing := 4 })
          (([FreqEvent.edge 1000] ++ [FreqEvent.edge 9000]) ++
            List.replicate 9 FreqEvent.overflow)) =
      freqOverflowCallback { freqExampleTracking with overflows := 1, missing := 4 } := by
  refine ⟨by decide,
    (watchdog_reset_state_independent { freqExampleTracking with overflows := 1, missing := 4 }
      (by decide)).2.2 _ ?_⟩
  rw [freqRun_append, freqRun_snoc_edge]
  obtain ⟨-, b1, b2⟩ := freqEdgeCallback_bookkeeping
    (freqRun (freqOverflowCallback { freqExampleTracking with overflows := 1, missing := 4 })
      [FreqEvent.edge 1000]) 9000
  obtain ⟨e1, e2, -⟩ := overflow_run_small _ b1 b2 9 (le_refl _)
  unfold freqOverflowResets
  rw [e1, e2]
  decide

/-! ## Signal conditioning -/

theorem freqEdgeCallback_freq {s : FreqInputPort} (t : Nat) (hc : s.capture ≠ 0) :
    (freqEdgeCallback s t).freq =
      (freqConditioning (freqEdgeStage s t).1 (freqEdgeStage s t).2).freq := by
  rw [freqEdgeCallback_of_capture t hc]
  rfl

theorem freqRebase_freq (s : FreqInputPort) (period : Nat) :
    (freqRebase s period).1.freq = s.freq := by
  unfold freqRebase freqSetBaseClock
  dsimp only
  split
  · rfl
  · split <;> rfl

theorem freqEdgeStage_freq (s : FreqInputPort) (t : Nat) :
    (freqEdgeStage s t).1.freq = s.freq := by
  unfold freqEdgeStage
  rw [freqRebase_freq]
  rfl

theorem freqPeriodFilter_between {s : FreqInputPort} {period : Nat}
    (hlo : -0x10000000 ≤ s.period) (hhi : s.period ≤ 0x10000000) (hper : period < 65536) :
    (freqPeriodFilter s period).period =
        s.period + Int.tdiv ((period : Int) - s.period) 32 ∧
    -0x10000000 ≤ (freqPeriodFilter s period).period ∧
    (freqPeriodFilter s period).period ≤ 0x10000000 := by
  unfold freqPeriodFilter FREQ_PERIOD_COEFF
  dsimp only
  rw [wrapInt32_of_range (x := (period : Int) - s.period) (by omega) (by omega)]
  rcases tdiv_cases ((period : Int) - s.period) 32 (by decide) with ⟨h, e⟩ | ⟨h, e⟩
  · rw [e, wrapInt32_of_range (by omega) (by omega)]
    exact ⟨rfl, by omega, by omega⟩
  · rw [e, wrapInt32_of_range (by omega) (by omega)]
    exact ⟨rfl, by omega, by omega⟩

theorem freqRebase_period_bound {s : FreqInputPort} (period : Nat)
    (hlo : -0x10000000 ≤ s.period) (hhi : s.period ≤ 0x10000000) :
    -0x20000000 ≤ (freqRebase s period).1.period ∧
    (freqRebase s period).1.period ≤ 0x20000000 := by
  unfold freqRebase freqSetBaseClock FREQ_SHIFT_MIN FREQ_SHIFT_MAX
  dsimp only
  split
  · dsimp only
    rw [wrapInt32_of_range (by omega) (by omega)]
    omega
  · split
    · dsimp only
      omega
    · dsimp only
      omega

theorem freqEdgeStage_period_bound {s : FreqInputPort} (t : Nat)
    (hlo : -0x10000000 ≤ s.period) (hhi : s.period ≤ 0x10000000) :
    -0x20000000 ≤ (freqEdgeStage s t).1.period ∧
    (freqEdgeStage s t).1.period ≤ 0x20000000 := by
  obtain ⟨-, b1, b2⟩ := freqPeriodFilter_between hlo hhi
    (intToUInt16_lt ((t : Int) - (s.capture : Int)))
  exact freqRebase_period_bound _ b1 b2

/-- The window test of line 151 in plain integer terms, when `p * 3` does not overflow. -/
theorem freq_window_iff {p : Int} (period : Nat)
    (hlo : -0x20000000 ≤ p) (hhi : p ≤ 0x20000000) :
    ((period : Int) > FREQ_PERIOD_MIN p ∧ (period : Int) < FREQ_PERIOD_MAX p) ↔
      (3 * p < 4 * (period : Int) ∧ 2 * (period : Int) + 2 ≤ 3 * p) := by
  unfold FREQ_PERIOD_MIN FREQ_PERIOD_MAX
  rw [wrapInt32_of_range (x := p * 3) (by omega) (by omega)]
  rcases tdiv_cases (p * 3) 4 (by decide) with ⟨h4, e4⟩ | ⟨h4, e4⟩ <;>
    rcases tdiv_cases (p * 3) 2 (by decide) with ⟨h2, e2⟩ | ⟨h2, e2⟩ <;>
    rw [e4, e2] <;> omega

theorem freqConditioning_freq_reject_window {s : FreqInputPort} {period : Nat}
    (h : ¬ ((period : Int) > FREQ_PERIOD_MIN s.period ∧
      (period : Int) < FREQ_PERIOD_MAX s.period)) :
    (freqConditioning s period).freq = s.freq := by
  unfold freqConditioning
  rw [if_neg h]

theorem freqConditioning_freq_reject_range {s : FreqInputPort} {period : Nat}
    (h : ¬ (s.clock / (period : ℚ) > FREQ_RANGE_MIN ∧
      s.clock / (period : ℚ) < FREQ_RANGE_MAX)) :
    (freqConditioning s period).freq = s.freq := by
  unfold freqConditioning
  split
  · dsimp only
    rw [if_neg h]
  · rfl

theorem freqConditioning_freq_accept {s : FreqInputPort} {period : Nat}
    (hw : (period : Int) > FREQ_PERIOD_MIN s.period ∧
      (period : Int) < FREQ_PERIOD_MAX s.period)
    (hr : s.clock / (period : ℚ) > FREQ_RANGE_MIN ∧
      s.clock / (period : ℚ) < FREQ_RANGE_MAX) :
    (freqConditioning s period).freq =
      s.freq + (s.clock / (period : ℚ) - s.freq) / FREQ_FILTER_COEFF := by
  unfold freqConditioning
  rw [if_pos hw]
  dsimp only
  rw [if_pos hr]

/-- C5: on an edge with a capture baseline, if the interval (after any prescaler change)
is not strictly inside `(0.75 * period, 1.5 * period)` or the candidate frequency
`clock / interval` is not strictly inside `(10, 5000)`, then `freq` is unchanged; in
particular candidates of exactly 5, 10, 5000 and 6000 Hz are rejected.  The filtered
period is assumed small enough for `period * 3` not to overflow. -/
theorem rejected_sample_keeps_freq (s : FreqInputPort) (t : Nat) (hc : s.capture ≠ 0)
    (hlo : -0x10000000 ≤ s.period) (hhi : s.period ≤ 0x10000000) :
    ((¬ ((3 / 4 : ℚ) * ((freqEdgeStage s t).1.period : ℚ) < ((freqEdgeStage s t).2 : ℚ) ∧
          ((freqEdgeStage s t).2 : ℚ) < (3 / 2 : ℚ) * ((freqEdgeStage s t).1.period : ℚ)) ∨
        ¬ (10 < freqCandidate s t ∧ freqCandidate s t < 5000)) →
      (freqEdgeCallback s t).freq = s.freq) ∧
    ((freqCandidate s t = 5 ∨ freqCandidate s t = 10 ∨ freqCandidate s t = 5000 ∨
        freqCandidate s t = 6000) →
      (freqEdgeCallback s t).freq = s.freq) := by
  obtain ⟨b1, b2⟩ := freqEdgeStage_period_bound t hlo hhi
  have main : (¬ ((3 / 4 : ℚ) * ((freqEdgeStage s t).1.period : ℚ) <
          ((freqEdgeStage s t).2 : ℚ) ∧
        ((freqEdgeStage s t).2 : ℚ) < (3 / 2 : ℚ) * ((freqEdgeStage s t).1.period : ℚ)) ∨
      ¬ (10 < freqCandidate s t ∧ freqCandidate s t < 5000)) →
      (freqEdgeCallback s t).freq = s.freq := by
    intro h
    rw [freqEdgeCallback_freq t hc, ← freqEdgeStage_freq s t]
    rcases h with h | h
    · apply freqConditioning_freq_reject_window
      intro hw
      obtain ⟨w1, w2⟩ := (freq_window_iff _ b1 b2).1 hw
      apply h
      have q1 : ((3 * (freqEdgeStage s t).1.period : Int) : ℚ) <
          ((4 * ((freqEdgeStage s t).2 : Int) : Int) : ℚ) := by exact_mod_cast w1
      have q2 : ((2 * ((freqEdgeStage s t).2 : Int) + 2 : Int) : ℚ) ≤
          ((3 * (freqEdgeStage s t).1.period : Int) : ℚ) := by exact_mod_cast w2
      push_cast at q1 q2
      constructor <;> linarith
    · apply freqConditioning_freq_reject_range
      intro hr
      exact h hr
  refine ⟨main, ?_⟩
  intro h
  apply main
  right
  rcases h with h | h | h | h <;> rw [h] <;> norm_num

theorem freqExampleSlow_candidate : freqCandidate freqExampleSlow 9192 = 10 := by
  have e1 : (freqEdgeStage freqExampleSlow 9192).1.clock = 81920 := by rfl
  have e2 : (freqEdgeStage freqExampleSlow 9192).2 = 8192 := by decide
  unfold freqCandidate
  rw [e1, e2]
  norm_num

/-- C5, witness: an edge whose candidate is exactly 10 Hz leaves the reading at 100 Hz. -/
theorem rejected_sample_keeps_freq_witness :
    freqExampleSlow.capture ≠ 0 ∧ -0x10000000 ≤ freqExampleSlow.period ∧
    freqExampleSlow.period ≤ 0x10000000 ∧ freqCandidate freqExampleSlow 9192 = 10 ∧
    (freqEdgeCallback freqExampleSlow 9192).freq = freqExampleSlow.freq :=
  ⟨by decide, by decide, by decide, freqExampleSlow_candidate,
    (rejected_sample_keeps_freq freqExampleSlow 9192 (by decide) (by decide) (by decide)).2
      (Or.inr (Or.inl freqExampleSlow_candidate))⟩

theorem freqEdgeCallback_period {s : FreqInputPort} (t : Nat) (hc : s.capture ≠ 0) :
    (freqEdgeCallback s t).period = (freqEdgeStage s t).1.period := by
  rw [freqEdgeCallback_of_capture t hc]
  exact (freqConditioning_frame _ _).1

/-- C7: on every edge with a capture baseline the period filter runs, whatever the
conditioning decides afterwards: the resulting `period` is that of the prescaler change
applied to the record whose `period` is `p + (interval - p) / 32`, the division
truncating toward zero; without a prescaler change it is that value itself.  The period
is assumed to be an `int32_t` for which `interval - p` does not overflow. -/
theorem period_filter_runs_every_edge (s : FreqInputPort) (t : Nat) (hc : s.capture ≠ 0)
    (hlo : -2147418112 ≤ s.period) (hhi : s.period ≤ 2147483647) :
    (freqPeriodFilter s (intToUInt16 ((t : Int) - (s.capture : Int)))).period =
      s.period + Int.tdiv ((intToUInt16 ((t : Int) - (s.capture : Int)) : Int) - s.period) 32 ∧
    (freqEdgeCallback s t).period =
      (freqRebase
        { s with period := s.period +
            Int.tdiv ((intToUInt16 ((t : Int) - (s.capture : Int)) : Int) - s.period) 32 }
        (intToUInt16 ((t : Int) - (s.capture : Int)))).1.period ∧
    (¬ (s.period + Int.tdiv ((intToUInt16 ((t : Int) - (s.capture : Int)) : Int) - s.period) 32
          < FREQ_SHIFT_MIN ∧ s.prescaler > FREQ_PRESCALER_MIN) →
      ¬ (s.period + Int.tdiv ((intToUInt16 ((t : Int) - (s.capture : Int)) : Int) - s.period) 32
          > FREQ_SHIFT_MAX ∧ s.prescaler < FREQ_PRESCALER_MAX) →
      (freqEdgeCallback s t).period =
        s.period +
          Int.tdiv ((intToUInt16 ((t : Int) - (s.capture : Int)) : Int) - s.period) 32) := by
  have hi := intToUInt16_lt ((t : Int) - (s.capture : Int))
  have e : freqPeriodFilter s (intToUInt16 ((t : Int) - (s.capture : Int))) =
      { s with period := s.period +
          Int.tdiv ((intToUInt16 ((t : Int) - (s.capture : Int)) : Int) - s.period) 32 } := by
    unfold freqPeriodFilter FREQ_PERIOD_COEFF
    rw [wrapInt32_of_range
      (x := (intToUInt16 ((t : Int) - (s.capture : Int)) : Int) - s.period)
      (by omega) (by omega)]
    rcases tdiv_cases ((intToUInt16 ((t : Int) - (s.capture : Int)) : Int) - s.period) 32
      (by decide) with ⟨h, e⟩ | ⟨h, e⟩
    · rw [wrapInt32_of_range (by rw [e]; omega) (by rw [e]; omega)]
    · rw [wrapInt32_of_range (by rw [e]; omega) (by rw [e]; omega)]
  refine ⟨by rw [e], ?_, ?_⟩
  · rw [freqEdgeCallback_period t hc]
    unfold freqEdgeStage
    rw [e]
  · intro n1 n2
    rw [freqEdgeCallback_period t hc]
    unfold freqEdgeStage
    rw [e]
    unfold freqRebase
    dsimp only
    rw [if_neg n1, if_neg n2]

/-- C7, witness: with `period = 10000` and an interval of 8000 ticks the filtered period
is `10000 + (8000 - 10000) / 32 = 9938`. -/
theorem period_filter_runs_every_edge_witness :
    freqExampleTracking.capture ≠ 0 ∧
    (freqPeriodFilter freqExampleTracking
      (intToUInt16 ((8500 : Int) - (freqExampleTracking.capture : Int)))).period =
      freqExampleTracking.period +
        Int.tdiv ((intToUInt16 ((8500 : Int) - (freqExampleTracking.capture : Int)) : Int) -
          freqExampleTracking.period) 32 ∧
    freqExampleTracking.period +
      Int.tdiv ((intToUInt16 ((8500 : Int) - (freqExampleTracking.capture : Int)) : Int) -
        freqExampleTracking.period) 32 = 9938 :=
  ⟨by decide,
    (period_filter_runs_every_edge freqExampleTracking 8500 (by decide) (by decide)
      (by decide)).1,
    by decide⟩

/-- C8: on a channel without a capture baseline (`capture = 0`) the edge handler only
records the timestamp and clears `overflows` and `missing`; `period`, `freq`,
`prescaler`, `clock` and the timer binding are unchanged.  From the reset baseline a
first edge at tick 1000 leaves `freq` at 0. -/
theorem first_edge_baseline_only (s : FreqInputPort) (t : Nat) (hc : s.capture = 0)
    (ht : t < 65536) :
    freqEdgeCallback s t = { s with capture := t, overflows := 0, missing := 0 } ∧
    (freqEdgeCallback s t).period = s.period ∧ (freqEdgeCallback s t).freq = s.freq ∧
    (freqEdgeCallback s t).prescaler = s.prescaler ∧ (freqEdgeCallback s t).clock = s.clock ∧
    (∀ s0 : FreqInputPort, (freqEdgeCallback (freqReset s0) 1000).freq = 0 ∧
      (freqEdgeCallback (freqReset s0) 1000).period = FREQ_PERIOD_INIT) := by
  have e : wrapUInt16 t = t := Nat.mod_eq_of_lt ht
  refine ⟨?_, ?_, ?_, ?_, ?_, ?_⟩
  · rw [freqEdgeCallback_of_sentinel t hc, e]
  · rw [freqEdgeCallback_of_sentinel t hc]
  · rw [freqEdgeCallback_of_sentinel t hc]
  · rw [freqEdgeCallback_of_sentinel t hc]
  · rw [freqEdgeCallback_of_sentinel t hc]
  · intro s0
    rw [freqEdgeCallback_of_sentinel 1000 (by rw [freqReset_eq])]
    exact ⟨rfl, rfl⟩

/-- C8, witness: the first edge after initialisation, at tick 1000. -/
theorem first_edge_baseline_only_witness :
    freqExampleBaseline.capture = 0 ∧ 1000 < 65536 ∧
    freqEdgeCallback freqExampleBaseline 1000 =
      { freqExampleBaseline with capture := 1000, overflows := 0, missing := 0 } :=
  ⟨by decide, by decide,
    (first_edge_baseline_only freqExampleBaseline 1000 (by decide) (by decide)).1⟩

/-- C9: after `freqEdgeCallback` returns, `capture` is the timestamp of the edge and
`overflows` and `missing` are 0, whatever the state before, also when the sample was
rejected and when the prescaler was changed. -/
theorem edge_records_capture (s : FreqInputPort) (t : Nat) (ht : t < 65536) :
    (freqEdgeCallback s t).capture = t ∧ (freqEdgeCallback s t).overflows = 0 ∧
    (freqEdgeCallback s t).missing = 0 := by
  obtain ⟨b0, b1, b2⟩ := freqEdgeCallback_bookkeeping s t
  have e : wrapUInt16 t = t := Nat.mod_eq_of_lt ht
  exact ⟨by rw [b0, e], b1, b2⟩

/-- C9, witness: an edge that halves the prescaler; `freqSetBaseClock` clears `capture`
inside the handler, and the handler stores the timestamp afterwards. -/
theorem edge_records_capture_witness :
    501 < 65536 ∧ (freqEdgeStage freqExampleRebase 501).1.prescaler = 1 ∧
    (freqEdgeStage freqExampleRebase 501).1.capture = 0 ∧
    (freqEdgeCallback freqExampleRebase 501).capture = 501 ∧
    (freqEdgeCallback freqExampleRebase 501).overflows = 0 ∧
    (freqEdgeCallback freqExampleRebase 501).missing = 0 :=
  ⟨by decide, by decide, by decide, edge_records_capture freqExampleRebase 501 (by decide)⟩

/-- C10: on an edge with a capture baseline the interval handed to `freqInputUpdate` is
`(t - capture) mod 2^16`; when the counter wrapped once between the two edges
(`t < capture`) it is `t + 65536 - capture`. -/
theorem edge_interval_mod (s : FreqInputPort) (t : Nat) (hc : s.capture ≠ 0)
    (hs : s.capture < 65536) (ht : t < 65536) :
    freqEdgeCallback s t =
      { freqInputUpdate s ((((t : Int) - (s.capture : Int)) % 65536).toNat) with
        capture := t, overflows := 0, missing := 0 } ∧
    (t < s.capture →
      freqEdgeCallback s t =
        { freqInputUpdate s (t + 65536 - s.capture) with
          capture := t, overflows := 0, missing := 0 }) ∧
    (s.capture ≤ t →
      freqEdgeCallback s t =
        { freqInputUpdate s (t - s.capture) with
          capture := t, overflows := 0, missing := 0 }) := by
  have e : wrapUInt16 t = t := Nat.mod_eq_of_lt ht
  have m : freqEdgeCallback s t =
      { freqInputUpdate s ((((t : Int) - (s.capture : Int)) % 65536).toNat) with
        capture := t, overflows := 0, missing := 0 } := by
    rw [freqEdgeCallback_of_capture t hc, e]
    rfl
  refine ⟨m, ?_, ?_⟩
  · intro hlt
    have : (((t : Int) - (s.capture : Int)) % 65536).toNat = t + 65536 - s.capture := by omega
    rw [m, this]
  · intro hle
    have : (((t : Int) - (s.capture : Int)) % 65536).toNat = t - s.capture := by omega
    rw [m, this]

/-- C10, witness: last capture at tick 65000, next edge at tick 464 after one counter
wrap: the interval is 1000 ticks. -/
theorem edge_interval_mod_witness :
    ({ freqExampleTracking with capture := 65000 } : FreqInputPort).capture ≠ 0 ∧
    freqEdgeCallback { freqExampleTracking with capture := 65000 } 464 =
      { freqInputUpdate { freqExampleTracking with capture := 65000 } (464 + 65536 - 65000) with
        capture := 464, overflows := 0, missing := 0 } :=
  ⟨by decide,
    (edge_interval_mod { freqExampleTracking with capture := 65000 } 464 (by decide)
      (by decide) (by decide)).2.1 (by decide)⟩

/-! ## Repeated timestamps -/

theorem freqRebase_snd_zero (s : FreqInputPort) : (freqRebase s 0).2 = 0 := by
  unfold freqRebase wrapUInt16
  split
  · rfl
  · split <;> rfl

theorem freqEdgeStage_self (s : FreqInputPort) :
    freqEdgeStage s s.capture = freqRebase (freqPeriodFilter s 0) 0 := by
  have e : intToUInt16 ((s.capture : Int) - (s.capture : Int)) = 0 := by
    unfold intToUInt16
    omega
  unfold freqEdgeStage
  rw [e]

theorem freqPeriodFilter_zero {s : FreqInputPort} (h1 : 1 ≤ s.period)
    (h2 : s.period ≤ 65535) :
    freqPeriodFilter s 0 = { s with period := s.period - s.period / 32 } := by
  have e : (freqPeriodFilter s 0).period = s.period - s.period / 32 := by
    rw [(freqPeriodFilter_period h1 h2 (by decide)).1]
    rcases tdiv_cases (((0 : Nat) : Int) - s.period) 32 (by decide) with ⟨h, e⟩ | ⟨h, e⟩
    · omega
    · rw [e]
      have : -(((0 : Nat) : Int) - s.period) = s.period := by omega
      rw [this]
      omega
  have e2 : freqPeriodFilter s 0 = { s with period := (freqPeriodFilter s 0).period } := rfl
  rw [e2, e]

/-- C11: in every state reached from the reset baseline, an edge whose timestamp equals
the stored `capture` (interval 0) leaves `freq` unchanged, and `period` stays positive:
without a capture baseline it is unchanged, otherwise it is the prescaler change applied
to the filtered value `p - p / 32`. -/
theorem repeated_timestamp_rejected (s0 : FreqInputPort) (events : List FreqEvent) :
    (freqEdgeCallback (freqRun (freqReset s0) events)
        (freqRun (freqReset s0) events).capture).freq =
      (freqRun (freqReset s0) events).freq ∧
    1 ≤ (freqEdgeCallback (freqRun (freqReset s0) events)
        (freqRun (freqReset s0) events).capture).period ∧
    ((freqRun (freqReset s0) events).capture = 0 →
      (freqEdgeCallback (freqRun (freqReset s0) events)
          (freqRun (freqReset s0) events).capture).period =
        (freqRun (freqReset s0) events).period) ∧
    ((freqRun (freqReset s0) events).capture ≠ 0 →
      (freqEdgeCallback (freqRun (freqReset s0) events)
          (freqRun (freqReset s0) events).capture).period =
        (freqRebase
          { freqRun (freqReset s0) events with
            period := (freqRun (freqReset s0) events).period -
              (freqRun (freqReset s0) events).period / 32 } 0).1.period) := by
  have inv := freqInv_run (freqReset s0) events (freqInv_reset s0)
  generalize freqRun (freqReset s0) events = s at inv ⊢
  have inv2 := freqInv_edge inv s.capture
  refine ⟨?_, inv2.2.1, ?_, ?_⟩
  · by_cases hc : s.capture = 0
    · rw [freqEdgeCallback_of_sentinel _ hc]
    · have hp := freqEdgeCallback_period s.capture hc
      rw [freqEdgeCallback_freq _ hc, ← freqEdgeStage_freq s s.capture]
      apply freqConditioning_freq_reject_window
      rw [freq_window_iff _ (by rw [← hp]; have := inv2.2.1; omega)
        (by rw [← hp]; have := inv2.2.2.1; omega)]
      rw [freqEdgeStage_self, freqRebase_snd_zero]
      rw [freqEdgeStage_self] at hp
      have := inv2.2.1
      rw [hp] at this
      intro hw
      have h3 := hw.1
      omega
  · intro hc
    rw [freqEdgeCallback_of_sentinel _ hc]
  · intro hc
    rw [freqEdgeCallback_period _ hc, freqEdgeStage_self,
      freqPeriodFilter_zero inv.2.1 inv.2.2.1]

/-! ## Convergence of the frequency filter -/

theorem freqAccepts_step {c : ℚ} (hc1 : 10 < c) (hc2 : c < 5000) {s : FreqInputPort}
    {t : Nat} {ts : List Nat} (h : freqAccepts c s (t :: ts)) :
    (freqEdgeCallback s t).freq = s.freq + (c - s.freq) / 8 ∧
    freqAccepts c (freqEdgeCallback s t) ts := by
  obtain ⟨h1, h2, h3, h4⟩ := h
  refine ⟨?_, h4⟩
  have hr : (freqEdgeStage s t).1.clock / ((freqEdgeStage s t).2 : ℚ) > FREQ_RANGE_MIN ∧
      (freqEdgeStage s t).1.clock / ((freqEdgeStage s t).2 : ℚ) < FREQ_RANGE_MAX := by
    unfold freqCandidate at h3
    rw [h3]
    exact ⟨hc1, hc2⟩
  rw [freqEdgeCallback_freq t h1, freqConditioning_freq_accept h2 hr, freqEdgeStage_freq]
  unfold freqCandidate at h3
  rw [h3]
  rfl

theorem freqAccepts_error {c : ℚ} (hc1 : 10 < c) (hc2 : c < 5000) (s : FreqInputPort)
    (ts : List Nat) (h : freqAccepts c s ts) :
    c - (freqRun s (ts.map FreqEvent.edge)).freq = (7 / 8) ^ ts.length * (c - s.freq) := by
  induction ts generalizing s with
  | nil => simp [freqRun]
  | cons t ts ih =>
    obtain ⟨e, h4⟩ := freqAccepts_step hc1 hc2 h
    have r : freqRun s ((t :: ts).map FreqEvent.edge) =
        freqRun (freqEdgeCallback s t) (ts.map FreqEvent.edge) := rfl
    rw [r, ih _ h4, e, List.length_cons, pow_succ]
    ring

/-- C12: along edges that are all accepted with the same candidate `c` in `(10, 5000)`,
each edge moves `freq` toward `c` without passing it and leaves `7/8` of the error, so
after `n` edges the error is `(7/8)^n` of the initial one, and it is below any `eps > 0`
for every such run of at least `N` edges, `N` depending on `eps` and the initial error
(frequencies are exact rationals). -/
theorem freq_converges_to_candidate (c : ℚ) (hc1 : 10 < c) (hc2 : c < 5000)
    (s : FreqInputPort) :
    (∀ t : Nat, freqAccepts c s [t] →
      ((s.freq ≤ c → s.freq ≤ (freqEdgeCallback s t).freq ∧ (freqEdgeCallback s t).freq ≤ c) ∧
        (c ≤ s.freq → c ≤ (freqEdgeCallback s t).freq ∧ (freqEdgeCallback s t).freq ≤ s.freq) ∧
        |c - (freqEdgeCallback s t).freq| = 7 / 8 * |c - s.freq|)) ∧
    (∀ ts : List Nat, freqAccepts c s ts →
      c - (freqRun s (ts.map FreqEvent.edge)).freq = (7 / 8) ^ ts.length * (c - s.freq) ∧
      |c - (freqRun s (ts.map FreqEvent.edge)).freq| = (7 / 8) ^ ts.length * |c - s.freq|) ∧
    (∀ eps : ℚ, 0 < eps → ∃ N : Nat, ∀ ts : List Nat, N ≤ ts.length → freqAccepts c s ts →
      |c - (freqRun s (ts.map FreqEvent.edge)).freq| < eps) := by
  have habs : ∀ ts : List Nat, freqAccepts c s ts →
      |c - (freqRun s (ts.map FreqEvent.edge)).freq| = (7 / 8) ^ ts.length * |c - s.freq| := by
    intro ts h
    rw [freqAccepts_error hc1 hc2 s ts h, abs_mul, abs_of_nonneg (by positivity)]
  refine ⟨?_, ?_, ?_⟩
  · intro t h
    obtain ⟨e, -⟩ := freqAccepts_step hc1 hc2 h
    have e2 : c - (freqEdgeCallback s t).freq = 7 / 8 * (c - s.freq) := by
      rw [e]
      ring
    refine ⟨?_, ?_, ?_⟩
    · intro hle
      constructor <;> linarith
    · intro hle
      constructor <;> linarith
    · rw [e2, abs_mul, abs_of_nonneg (by norm_num : (0 : ℚ) ≤ 7 / 8)]
  · intro ts h
    exact ⟨freqAccepts_error hc1 hc2 s ts h, habs ts h⟩
  · intro eps heps
    have hpos : 0 < eps / (|c - s.freq| + 1) := div_pos heps (by positivity)
    obtain ⟨N, hN⟩ := exists_pow_lt_of_lt_one hpos (by norm_num : (7 / 8 : ℚ) < 1)
    refine ⟨N, ?_⟩
    intro ts hlen h
    rw [habs ts h]
    have h1 : (7 / 8 : ℚ) ^ ts.length ≤ (7 / 8) ^ N :=
      pow_le_pow_of_le_one (by norm_num) (by norm_num) hlen
    have h2 : (7 / 8 : ℚ) ^ N * (|c - s.freq| + 1) < eps := by
      rwa [lt_div_iff₀ (by positivity)] at hN
    have h3 : (0 : ℚ) ≤ |c - s.freq| := abs_nonneg _
    have h4 : (0 : ℚ) ≤ (7 / 8) ^ N := by positivity
    nlinarith

theorem freqExampleFast_stage_at (f : ℚ) (cap t : Nat)
    (hi : intToUInt16 ((t : Int) - (cap : Int)) = 1000) :
    freqEdgeStage { freqExampleFast with freq := f, capture := cap } t =
      ({ freqExampleFast with freq := f, capture := cap }, 1000) := by
  unfold freqEdgeStage
  dsimp only
  rw [hi]
  have e : freqPeriodFilter { freqExampleFast with freq := f, capture := cap } 1000 =
      { freqExampleFast with freq := f, capture := cap } := by
    unfold freqPeriodFilter freqExampleFast
    have : wrapInt32 ((1000 : Int) +
        Int.tdiv (wrapInt32 (((1000 : Nat) : Int) - 1000)) FREQ_PERIOD_COEFF) = 1000 := by decide
    simp only [this]
  rw [e]
  unfold freqRebase
  rw [if_neg (by simp only [freqExampleFast]; decide),
    if_neg (by simp only [freqExampleFast]; decide)]

theorem freqExampleFast_edge_at (f : ℚ) (cap t : Nat) (hcap : cap ≠ 0)
    (hi : intToUInt16 ((t : Int) - (cap : Int)) = 1000) :
    freqAccepts 1000 { freqExampleFast with freq := f, capture := cap } [t] ∧
    freqEdgeCallback { freqExampleFast with freq := f, capture := cap } t =
      { freqExampleFast with freq := f + (1000 - f) / 8, capture := wrapUInt16 t } := by
  have st := freqExampleFast_stage_at f cap t hi
  have hw : ((1000 : Nat) : Int) >
        FREQ_PERIOD_MIN ({ freqExampleFast with freq := f, capture := cap } : FreqInputPort).period ∧
      ((1000 : Nat) : Int) <
        FREQ_PERIOD_MAX ({ freqExampleFast with freq := f, capture := cap } : FreqInputPort).period := by
    simp only [freqExampleFast]
    decide
  have hcand : ({ freqExampleFast with freq := f, capture := cap } : FreqInputPort).clock /
      ((1000 : Nat) : ℚ) = 1000 := by
    show (1000000 : ℚ) / ((1000 : Nat) : ℚ) = 1000
    norm_num
  have hr : ({ freqExampleFast with freq := f, capture := cap } : FreqInputPort).clock /
        ((1000 : Nat) : ℚ) > FREQ_RANGE_MIN ∧
      ({ freqExampleFast with freq := f, capture := cap } : FreqInputPort).clock /
        ((1000 : Nat) : ℚ) < FREQ_RANGE_MAX := by
    rw [hcand]
    unfold FREQ_RANGE_MIN FREQ_RANGE_MAX
    norm_num
  refine ⟨⟨hcap, ?_, ?_, trivial⟩, ?_⟩
  · rw [st]
    exact hw
  · unfold freqCandidate
    rw [st]
    exact hcand
  · rw [freqEdgeCallback_of_capture t hcap]
    unfold freqInputUpdate
    dsimp only
    have st2 : freqRebase
        (freqPeriodFilter { freqExampleFast with freq := f, capture := cap }
          (intToUInt16 ((t : Int) - (cap : Int))))
        (intToUInt16 ((t : Int) - (cap : Int))) =
        ({ freqExampleFast with freq := f, capture := cap }, 1000) := st
    rw [st2]
    unfold freqConditioning
    dsimp only
    rw [if_pos hw, if_pos hr, hcand]
    rfl

theorem freqExampleFast_accepts :
    freqAccepts 1000 freqExampleFast [1500, 2500, 3500] := by
  have e0 : freqExampleFast = { freqExampleFast with freq := 900, capture := 500 } := rfl
  obtain ⟨⟨a1, a2, a3, -⟩, r1⟩ :=
    freqExampleFast_edge_at 900 500 1500 (by decide) (by decide)
  obtain ⟨⟨b1, b2, b3, -⟩, r2⟩ :=
    freqExampleFast_edge_at (900 + (1000 - 900) / 8) (wrapUInt16 1500) 2500 (by decide)
      (by decide)
  obtain ⟨⟨c1, c2, c3, -⟩, -⟩ :=
    freqExampleFast_edge_at (900 + (1000 - 900) / 8 + (1000 - (900 + (1000 - 900) / 8)) / 8)
      (wrapUInt16 2500) 3500 (by decide) (by decide)
  rw [← e0] at a1 a2 a3 r1
  rw [← r1] at b1 b2 b3 r2
  rw [← r2] at c1 c2 c3
  exact ⟨a1, a2, a3, b1, b2, b3, c1, c2, c3, trivial⟩

/-- C12, witness: three edges 1000 ticks apart on a channel at 900 Hz whose candidate is
1000 Hz leave `(7/8)^3` of the initial error of 100 Hz. -/
theorem freq_converges_to_candidate_witness :
    (10 : ℚ) < 1000 ∧ (1000 : ℚ) < 5000 ∧ freqAccepts 1000 freqExampleFast [1500, 2500, 3500] ∧
    1000 - (freqRun freqExampleFast ([1500, 2500, 3500].map FreqEvent.edge)).freq =
      (7 / 8) ^ 3 * (1000 - freqExampleFast.freq) :=
  ⟨by norm_num, by norm_num, freqExampleFast_accepts,
    ((freq_converges_to_candidate 1000 (by norm_num) (by norm_num) freqExampleFast).2.1
      [1500, 2500, 3500] freqExampleFast_accepts).1⟩

/-! ## The two-edge scenario -/

theorem freqRebase_of_in_range {s : FreqInputPort} (period : Nat)
    (h1 : FREQ_SHIFT_MIN ≤ s.period) (h2 : s.period ≤ FREQ_SHIFT_MAX) :
    freqRebase s period = (s, period) := by
  unfold freqRebase
  rw [if_neg (fun h => absurd h.1 (not_lt.mpr h1)),
    if_neg (fun h => absurd h.1 (not_lt.mpr h2))]

theorem freqScenario_first (s0 : FreqInputPort) :
    freqEdgeCallback (freqReset s0) 1000 =
      { freq := 0, clock := (timerClock s0.timerHardware : ℚ) / 0x2000, period := 0x2000,
        capture := 1000, missing := 0, prescaler := 0x2000, overflows := 0,
        timerHardware := s0.timerHardware } := by
  rw [freqEdgeCallback_of_sentinel 1000 (by rw [freqReset_eq]), freqReset_eq]
  rfl

theorem freqScenario_stage (s0 : FreqInputPort) :
    (freqEdgeStage (freqEdgeCallback (freqReset s0) 1000) 3000).1.period = 7999 ∧
    (freqEdgeStage (freqEdgeCallback (freqReset s0) 1000) 3000).2 = 2000 ∧
    (freqEdgeStage (freqEdgeCallback (freqReset s0) 1000) 3000).1.prescaler = 0x2000 := by
  rw [freqScenario_first]
  unfold freqEdgeStage
  dsimp only
  have e : intToUInt16 (((3000 : Nat) : Int) - ((1000 : Nat) : Int)) = 2000 := by decide
  rw [e]
  have hp : (freqPeriodFilter
      { freq := 0, clock := (timerClock s0.timerHardware : ℚ) / 0x2000, period := 0x2000,
        capture := 1000, missing := 0, prescaler := 0x2000, overflows := 0,
        timerHardware := s0.timerHardware } 2000).period = 7999 := by
    unfold freqPeriodFilter
    dsimp only
    decide
  rw [freqRebase_of_in_range 2000 (by rw [hp]; decide) (by rw [hp]; decide)]
  exact ⟨hp, rfl, rfl⟩

/-- C13, counterexample: from the reset baseline, after edges at ticks 1000 and 3000 the
filtered period is 7999, not 7998: `(2000 - 8192) / 32` is `-193` in C. -/
theorem two_edge_scenario_counterexample :
    (freqRun freqExampleBaseline [FreqEvent.edge 1000, FreqEvent.edge 3000]).period = 7999 ∧
    (freqRun freqExampleBaseline [FreqEvent.edge 1000, FreqEvent.edge 3000]).period ≠ 7998 := by
  have h : (freqRun freqExampleBaseline [FreqEvent.edge 1000, FreqEvent.edge 3000]).period
      = 7999 := by decide
  exact ⟨h, by rw [h]; decide⟩

/-- C13, amended: from the reset baseline of any channel, after a first edge at tick 1000
and a second edge at tick 3000 the filtered period is 7999 and `freq` is still 0. -/
theorem two_edge_scenario (s0 : FreqInputPort) :
    (freqRun (freqReset s0) [FreqEvent.edge 1000, FreqEvent.edge 3000]).period = 7999 ∧
    (freqRun (freqReset s0) [FreqEvent.edge 1000, FreqEvent.edge 3000]).freq = 0 := by
  have r : freqRun (freqReset s0) [FreqEvent.edge 1000, FreqEvent.edge 3000] =
      freqEdgeCallback (freqEdgeCallback (freqReset s0) 1000) 3000 := rfl
  obtain ⟨e1, e2, -⟩ := freqScenario_stage s0
  have hc : (freqEdgeCallback (freqReset s0) 1000).capture ≠ 0 := by
    rw [freqScenario_first]
    dsimp only
    decide
  have hf : (freqEdgeCallback (freqReset s0) 1000).freq = 0 := by
    rw [freqScenario_first]
  rw [r]
  refine ⟨?_, ?_⟩
  · rw [freqEdgeCallback_period 3000 hc, e1]
  · rw [freqEdgeCallback_freq 3000 hc, freqConditioning_freq_reject_window,
      freqEdgeStage_freq, hf]
    rw [e1, e2]
    decide

/-! ## The read interface -/

theorem freqPort_of_lt {d : FreqDriver} {port : Nat} (h : port < FREQ_SENSOR_PORT_COUNT d) :
    d.freqInputPorts[port]? = some (freqPort d port) := by
  unfold FREQ_SENSOR_PORT_COUNT at h
  unfold freqPort
  rw [List.getD_eq_getElem?_getD, List.getElem?_eq_getElem h]
  rfl

/-- C14: `freqRead(port)` returns the `freq` of `freqInputPorts[port]` when
`port < FREQ_SENSOR_PORT_COUNT` and 0 otherwise, `freqGetERPM(port)` returns 0 when
`port ≥ FREQ_SENSOR_PORT_COUNT`, and neither call changes the globals. -/
theorem read_out_of_range_is_zero (d : FreqDriver) (port : Nat) :
    (port < FREQ_SENSOR_PORT_COUNT d →
      ∃ input : FreqInputPort, d.freqInputPorts[port]? = some input ∧
        (freqRead d port).1 = input.freq) ∧
    (FREQ_SENSOR_PORT_COUNT d ≤ port → (freqRead d port).1 = 0) ∧
    (FREQ_SENSOR_PORT_COUNT d ≤ port → (freqGetERPM d port).1 = 0) ∧
    (freqRead d port).2 = d ∧ (freqGetERPM d port).2 = d := by
  refine ⟨?_, ?_, ?_, ?_, ?_⟩
  · intro h
    refine ⟨freqPort d port, freqPort_of_lt h, ?_⟩
    unfold freqRead
    rw [if_pos h]
  · intro h
    unfold freqRead
    rw [if_neg (not_lt.mpr h)]
  · intro h
    unfold freqGetERPM
    rw [if_neg (not_lt.mpr h)]
  · unfold freqRead
    split <;> rfl
  · unfold freqGetERPM
    split <;> rfl

theorem floatToUInt16_eq_floor {x : ℚ} (h0 : 0 ≤ x) (h1 : x < 65536) :
    floatToUInt16 x = ⌊x⌋.toNat := by
  have hf : ⌊x⌋ = x.num / (x.den : Int) := Rat.floor_def' x
  have hn : 0 ≤ x.num := Rat.num_nonneg.mpr h0
  have ht : Int.tdiv x.num (x.den : Int) = x.num / (x.den : Int) :=
    Int.tdiv_eq_ediv hn (by positivity)
  have hlo : 0 ≤ ⌊x⌋ := Int.floor_nonneg.mpr h0
  have hhi : ⌊x⌋ < 65536 := by
    have : (⌊x⌋ : ℚ) ≤ x := Int.floor_le x
    have h2 : (⌊x⌋ : ℚ) < ((65536 : Int) : ℚ) := by
      push_cast
      linarith
    exact_mod_cast h2
  unfold floatToUInt16 intToUInt16
  rw [ht, ← hf]
  omega

/-! ## Binary32 rounding -/

theorem roundNearestEven_bounds (q : ℚ) :
    (⌊q⌋ : Int) ≤ roundNearestEven q ∧ roundNearestEven q ≤ ⌊q⌋ + 1 := by
  unfold roundNearestEven
  split
  · omega
  · split
    · omega
    · split <;> omega

theorem roundNearestEven_intCast (m : Int) : roundNearestEven (m : ℚ) = m := by
  unfold roundNearestEven
  rw [Int.floor_intCast]
  simp

theorem roundNearestEven_mono {q r : ℚ} (h : q ≤ r) :
    roundNearestEven q ≤ roundNearestEven r := by
  have hf : ⌊q⌋ ≤ ⌊r⌋ := Int.floor_mono h
  rcases lt_or_eq_of_le hf with hlt | heq
  · have := (roundNearestEven_bounds q).2
    have := (roundNearestEven_bounds r).1
    omega
  · unfold roundNearestEven
    rw [heq]
    split_ifs <;> first | omega | (exfalso; linarith)

theorem roundNearestEven_eq {q : ℚ} (m : Int) (h1 : (m : ℚ) - 1 / 2 < q)
    (h2 : q < (m : ℚ) + 1 / 2) : roundNearestEven q = m := by
  rcases le_or_lt (m : ℚ) q with h | h
  · have hf : ⌊q⌋ = m := by
      rw [Int.floor_eq_iff]
      constructor <;> linarith
    unfold roundNearestEven
    rw [hf, if_pos (by linarith)]
  · have hf : ⌊q⌋ = m - 1 := by
      rw [Int.floor_eq_iff]
      push_cast
      constructor <;> linarith
    unfold roundNearestEven
    rw [hf, if_neg (by push_cast; linarith), if_pos (by push_cast; linarith)]
    omega

theorem float32_two_pos (e : Int) : (0 : ℚ) < (2 : ℚ) ^ e := zpow_pos (by norm_num) e

theorem roundFloat32_of_nonneg {x : ℚ} (h : 0 ≤ x) :
    roundFloat32 x =
      (roundNearestEven (x / (2 : ℚ) ^ float32Exponent x) : ℚ) *
        (2 : ℚ) ^ float32Exponent x := by
  unfold roundFloat32
  rw [if_pos h]

theorem roundFloat32_nonneg {x : ℚ} (h : 0 ≤ x) : 0 ≤ roundFloat32 x := by
  rw [roundFloat32_of_nonneg h]
  have hq : 0 ≤ x / (2 : ℚ) ^ float32Exponent x := div_nonneg h (le_of_lt (float32_two_pos _))
  have hf : (0 : Int) ≤ ⌊x / (2 : ℚ) ^ float32Exponent x⌋ := Int.floor_nonneg.mpr hq
  have hr := (roundNearestEven_bounds (x / (2 : ℚ) ^ float32Exponent x)).1
  have : (0 : ℚ) ≤ (roundNearestEven (x / (2 : ℚ) ^ float32Exponent x) : ℚ) := by
    exact_mod_cast le_trans hf hr
  exact mul_nonneg this (le_of_lt (float32_two_pos _))

theorem float32Exponent_ge (x : ℚ) :
    Int.log 2 x - 23 ≤ float32Exponent x ∧ -149 ≤ float32Exponent x := by
  unfold float32Exponent
  exact ⟨le_max_left _ _, le_max_right _ _⟩

/-- Upper bound of the rounded value by the end of the binade. -/
theorem roundFloat32_le_binade {x : ℚ} (h : 0 ≤ x) :
    roundFloat32 x ≤ (2 : ℚ) ^ (float32Exponent x + 24) := by
  rw [roundFloat32_of_nonneg h]
  have hu := float32_two_pos (float32Exponent x)
  have hx : x < (2 : ℚ) ^ (float32Exponent x + 24) := by
    have h1 : x < ((2 : ℕ) : ℚ) ^ (Int.log 2 x + 1) := Int.lt_zpow_succ_log_self (by norm_num) x
    have h2 : ((2 : ℕ) : ℚ) ^ (Int.log 2 x + 1) ≤ (2 : ℚ) ^ (float32Exponent x + 24) := by
      push_cast
      exact zpow_le_zpow_right₀ (by norm_num) (by have := (float32Exponent_ge x).1; omega)
    exact lt_of_lt_of_le h1 h2
  have hq : x / (2 : ℚ) ^ float32Exponent x < ((16777216 : Int) : ℚ) := by
    rw [div_lt_iff₀ hu]
    rw [zpow_add₀ (by norm_num : (2 : ℚ) ≠ 0)] at hx
    have : (2 : ℚ) ^ (24 : Int) = 16777216 := by norm_num
    rw [this] at hx
    push_cast
    linarith
  have hfl : ⌊x / (2 : ℚ) ^ float32Exponent x⌋ < 16777216 := Int.floor_lt.mpr hq
  have hr := (roundNearestEven_bounds (x / (2 : ℚ) ^ float32Exponent x)).2
  have hle : (roundNearestEven (x / (2 : ℚ) ^ float32Exponent x) : ℚ) ≤ 16777216 := by
    have : roundNearestEven (x / (2 : ℚ) ^ float32Exponent x) ≤ 16777216 := by omega
    exact_mod_cast this
  rw [zpow_add₀ (by norm_num : (2 : ℚ) ≠ 0)]
  have : (2 : ℚ) ^ (24 : Int) = 16777216 := by norm_num
  rw [this, mul_comm ((2 : ℚ) ^ float32Exponent x)]
  exact mul_le_mul_of_nonneg_right hle (le_of_lt hu)

/-- Lower bound of the rounded value by the start of a normal binade. -/
theorem roundFloat32_ge_binade {y : ℚ} (h : 0 < y) (he : float32Exponent y = Int.log 2 y - 23) :
    (2 : ℚ) ^ (float32Exponent y + 23) ≤ roundFloat32 y := by
  rw [roundFloat32_of_nonneg (le_of_lt h)]
  have hu := float32_two_pos (float32Exponent y)
  have hy : (2 : ℚ) ^ (float32Exponent y + 23) ≤ y := by
    have h1 : ((2 : ℕ) : ℚ) ^ Int.log 2 y ≤ y := Int.zpow_log_le_self (by norm_num) h
    have e : float32Exponent y + 23 = Int.log 2 y := by omega
    rw [e]
    exact_mod_cast h1
  have hq : ((8388608 : Int) : ℚ) ≤ y / (2 : ℚ) ^ float32Exponent y := by
    rw [le_div_iff₀ hu]
    rw [zpow_add₀ (by norm_num : (2 : ℚ) ≠ 0)] at hy
    have : (2 : ℚ) ^ (23 : Int) = 8388608 := by norm_num
    rw [this] at hy
    push_cast
    linarith
  have hfl : (8388608 : Int) ≤ ⌊y / (2 : ℚ) ^ float32Exponent y⌋ := Int.le_floor.mpr hq
  have hr := (roundNearestEven_bounds (y / (2 : ℚ) ^ float32Exponent y)).1
  have hle : (8388608 : ℚ) ≤ (roundNearestEven (y / (2 : ℚ) ^ float32Exponent y) : ℚ) := by
    have : (8388608 : Int) ≤ roundNearestEven (y / (2 : ℚ) ^ float32Exponent y) := by omega
    exact_mod_cast this
  rw [zpow_add₀ (by norm_num : (2 : ℚ) ≠ 0)]
  have : (2 : ℚ) ^ (23 : Int) = 8388608 := by norm_num
  rw [this, mul_comm ((2 : ℚ) ^ float32Exponent y)]
  exact mul_le_mul_of_nonneg_right hle (le_of_lt hu)

theorem roundFloat32_mono {x y : ℚ} (hx : 0 ≤ x) (hxy : x ≤ y) :
    roundFloat32 x ≤ roundFloat32 y := by
  rcases eq_or_lt_of_le hx with h0 | hpos
  · have e : roundFloat32 x = 0 := by
      have r0 : roundNearestEven 0 = 0 := by
        have := roundNearestEven_intCast 0
        simpa using this
      rw [← h0, roundFloat32_of_nonneg (le_refl _), zero_div, r0]
      simp
    rw [e]
    exact roundFloat32_nonneg (le_trans hx hxy)
  · have hy : 0 < y := lt_of_lt_of_le hpos hxy
    have hlog : Int.log 2 x ≤ Int.log 2 y := Int.log_mono_right hpos hxy
    have hexp : float32Exponent x ≤ float32Exponent y := by
      unfold float32Exponent
      exact max_le_max (by omega) (le_refl _)
    rcases eq_or_lt_of_le hexp with heq | hlt
    · rw [roundFloat32_of_nonneg hx, roundFloat32_of_nonneg (le_of_lt hy), heq]
      have hu := float32_two_pos (float32Exponent y)
      have hq : x / (2 : ℚ) ^ float32Exponent y ≤ y / (2 : ℚ) ^ float32Exponent y :=
        div_le_div_of_nonneg_right hxy (le_of_lt hu)
      have hm : (roundNearestEven (x / (2 : ℚ) ^ float32Exponent y) : ℚ) ≤
          (roundNearestEven (y / (2 : ℚ) ^ float32Exponent y) : ℚ) := by
        exact_mod_cast roundNearestEven_mono hq
      exact mul_le_mul_of_nonneg_right hm (le_of_lt hu)
    · have hey : float32Exponent y = Int.log 2 y - 23 := by
        have h149 := (float32Exponent_ge x).2
        unfold float32Exponent at hlt ⊢
        rcases max_cases (Int.log 2 y - 23) (-149) with ⟨e, -⟩ | ⟨e, -⟩
        · exact e
        · rw [e] at hlt
          unfold float32Exponent at h149
          omega
      have h1 := roundFloat32_le_binade hx
      have h2 := roundFloat32_ge_binade hy hey
      have h3 : (2 : ℚ) ^ (float32Exponent x + 24) ≤ (2 : ℚ) ^ (float32Exponent y + 23) :=
        zpow_le_zpow_right₀ (by norm_num) (by omega)
      linarith

/-- A non-negative value that is an integer multiple of its unit in the last place is
representable. -/
theorem roundFloat32_of_multiple {x : ℚ} (h : 0 ≤ x) (m : Int)
    (hm : x / (2 : ℚ) ^ float32Exponent x = (m : ℚ)) : roundFloat32 x = x := by
  rw [roundFloat32_of_nonneg h, hm, roundNearestEven_intCast, ← hm]
  exact div_mul_cancel₀ x (ne_of_gt (float32_two_pos _))

theorem roundFloat32_natCast (k : Nat) (hk : k ≤ 16777216) : roundFloat32 (k : ℚ) = k := by
  have h0 : (0 : ℚ) ≤ (k : ℚ) := Nat.cast_nonneg k
  have hlog : Int.log 2 (k : ℚ) = Nat.log 2 k := Int.log_natCast 2 k
  have hL : Nat.log 2 k ≤ 24 := by
    have : Nat.log 2 k < 25 := by
      rcases Nat.eq_zero_or_pos k with h | h
      · subst h
        simp
      · exact Nat.log_lt_of_lt_pow (by omega) (by norm_num; omega)
    omega
  have he : float32Exponent (k : ℚ) = (Nat.log 2 k : Int) - 23 := by
    unfold float32Exponent
    rw [hlog]
    exact max_eq_left (by omega)
  rcases Nat.lt_or_ge (Nat.log 2 k) 24 with hlt | hge
  · -- the unit is at most 1
    obtain ⟨n, hn⟩ : ∃ n : Nat, (Nat.log 2 k : Int) - 23 = -(n : Int) :=
      ⟨23 - Nat.log 2 k, by omega⟩
    apply roundFloat32_of_multiple h0 ((k * 2 ^ n : Nat) : Int)
    rw [he, hn, zpow_neg, zpow_natCast, div_inv_eq_mul]
    push_cast
    rfl
  · -- k = 2 ^ 24
    have hL24 : Nat.log 2 k = 24 := by omega
    have hkpos : k ≠ 0 := by
      intro h
      subst h
      simp at hL24
    have hk2 : 2 ^ 24 ≤ k := by
      have := Nat.pow_log_le_self 2 hkpos
      rw [hL24] at this
      exact this
    have hk3 : k = 16777216 := by
      norm_num at hk2
      omega
    apply roundFloat32_of_multiple h0 (8388608 : Int)
    rw [he, hL24, hk3]
    norm_num

/-- The rounded value of `x` in the normal binade `[2^e, 2^(e+1))`. -/
theorem roundFloat32_of_binade {x : ℚ} (e : Int) (he : -126 ≤ e) (h1 : (2 : ℚ) ^ e ≤ x)
    (h2 : x < (2 : ℚ) ^ (e + 1)) :
    roundFloat32 x =
      (roundNearestEven (x / (2 : ℚ) ^ (e - 23)) : ℚ) * (2 : ℚ) ^ (e - 23) := by
  have hpos : 0 < x := lt_of_lt_of_le (float32_two_pos e) h1
  have hlog : Int.log 2 x = e := by
    have a : e ≤ Int.log 2 x :=
      (Int.zpow_le_iff_le_log (by norm_num) hpos).mp (by exact_mod_cast h1)
    have b : Int.log 2 x < e + 1 :=
      (Int.lt_zpow_iff_log_lt (by norm_num) hpos).mp (by exact_mod_cast h2)
    omega
  have hexp : float32Exponent x = e - 23 := by
    unfold float32Exponent
    rw [hlog]
    exact max_eq_left (by omega)
  rw [roundFloat32_of_nonneg (le_of_lt hpos), hexp]

theorem roundFloat32_example_scaled : roundFloat32 (303 / 5) = 7942963 / 131072 := by
  rw [roundFloat32_of_binade 5 (by norm_num) (by norm_num) (by norm_num),
    roundNearestEven_eq 15885926 (by norm_num) (by norm_num)]
  norm_num

/-- The two roundings of `freqGetERPM` keep the value between the integers that
enclose the exact scaled reading. -/
theorem freqScaled_round_bounds {f : ℚ} (n : Nat) (hn : n < 65535)
    (h1 : (n : ℚ) ≤ f * 60 / 100) (h2 : f * 60 / 100 < (n : ℚ) + 1) :
    (n : ℚ) ≤ roundFloat32 (roundFloat32 (f * 60) / 100) ∧
    roundFloat32 (roundFloat32 (f * 60) / 100) ≤ (n : ℚ) + 1 := by
  have hn0 : (0 : ℚ) ≤ (n : ℚ) := Nat.cast_nonneg n
  have a1 : ((100 * n : Nat) : ℚ) ≤ f * 60 := by
    push_cast
    linarith
  have a2 : f * 60 ≤ ((100 * (n + 1) : Nat) : ℚ) := by
    push_cast
    linarith
  have b1 := roundFloat32_mono (Nat.cast_nonneg (100 * n)) a1
  rw [roundFloat32_natCast (100 * n) (by omega)] at b1
  have b2 := roundFloat32_mono (le_trans (Nat.cast_nonneg (100 * n)) a1) a2
  rw [roundFloat32_natCast (100 * (n + 1)) (by omega)] at b2
  have c1 : (n : ℚ) ≤ roundFloat32 (f * 60) / 100 := by
    push_cast at b1
    linarith
  have c2 : roundFloat32 (f * 60) / 100 ≤ ((n + 1 : Nat) : ℚ) := by
    push_cast at b2 ⊢
    linarith
  have d1 := roundFloat32_mono hn0 c1
  rw [roundFloat32_natCast n (by omega)] at d1
  have d2 := roundFloat32_mono (le_trans hn0 c1) c2
  rw [roundFloat32_natCast (n + 1) (by omega)] at d2
  push_cast at d2
  exact ⟨d1, d2⟩

theorem freqGetERPM_of_lt {d : FreqDriver} {port : Nat} (h : port < FREQ_SENSOR_PORT_COUNT d) :
    (freqGetERPM d port).1 =
      floatToUInt16 (roundFloat32 (roundFloat32 ((freqPort d port).freq * 60) / 100)) := by
  unfold freqGetERPM
  rw [if_pos h]

theorem freqExampleDriver_erpm : (freqGetERPM freqExampleDriver 0).1 = 60 := by
  have e : (freqPort freqExampleDriver 0).freq * 60 = ((6060 : Nat) : ℚ) := by
    show (101 : ℚ) * 60 = ((6060 : Nat) : ℚ)
    norm_num
  have e2 : (((6060 : Nat) : ℚ)) / 100 = 303 / 5 := by norm_num
  have hfl : ⌊(7942963 / 131072 : ℚ)⌋ = 60 := by
    rw [Int.floor_eq_iff]
    norm_num
  rw [freqGetERPM_of_lt (by decide), e, roundFloat32_natCast 6060 (by norm_num), e2,
    roundFloat32_example_scaled, floatToUInt16_eq_floor (by norm_num) (by norm_num), hfl]
  rfl

theorem freqExampleDriverThird_erpm :
    (freqGetERPM freqExampleDriverThird 0).1 = 8 ∧
    ⌊(freqPort freqExampleDriverThird 0).freq * 60 / 100⌋ = 7 := by
  have e : (freqPort freqExampleDriverThird 0).freq = 13981013 / 1048576 := rfl
  have r1 : roundFloat32 ((13981013 / 1048576 : ℚ) * 60) = ((800 : Nat) : ℚ) := by
    rw [roundFloat32_of_binade 9 (by norm_num) (by norm_num) (by norm_num),
      roundNearestEven_eq 13107200 (by norm_num) (by norm_num)]
    norm_num
  have r2 : (((800 : Nat) : ℚ)) / 100 = ((8 : Nat) : ℚ) := by norm_num
  have hfl : ⌊(((8 : Nat) : ℚ))⌋ = 8 := by
    rw [Int.floor_eq_iff]
    norm_num
  refine ⟨?_, ?_⟩
  · rw [freqGetERPM_of_lt (by decide), e, r1, r2, roundFloat32_natCast 8 (by norm_num),
      floatToUInt16_eq_floor (by norm_num) (by norm_num), hfl]
    rfl
  · rw [e, Int.floor_eq_iff]
    norm_num

/-- C15, counterexample: with a reading of 101 Hz the scaled value is 60.6, whose nearest
integer is 61, and `freqGetERPM` returns 60. -/
theorem erpm_round_counterexample :
    0 < FREQ_SENSOR_PORT_COUNT freqExampleDriver ∧
    (freqPort freqExampleDriver 0).freq = 101 ∧
    round ((freqPort freqExampleDriver 0).freq * 60 / 100) = 61 ∧
    (freqGetERPM freqExampleDriver 0).1 = 60 := by
  have e : (freqPort freqExampleDriver 0).freq = 101 := rfl
  refine ⟨by decide, e, ?_, freqExampleDriver_erpm⟩
  rw [e, round_eq, Int.floor_eq_iff]
  norm_num

/-- C15, amended: for a valid port whose exact scaled reading `x = freq * 60 / 100` is in
`[0, 65535)`, `freqGetERPM(port)` is the binary32 value of `freq * 60.0f / 100.0f`
truncated toward zero, and this is `⌊x⌋` or `⌊x⌋ + 1`. -/
theorem erpm_truncates_binary32 (d : FreqDriver) (port : Nat)
    (h : port < FREQ_SENSOR_PORT_COUNT d)
    (h0 : 0 ≤ (freqPort d port).freq * 60 / 100)
    (h1 : (freqPort d port).freq * 60 / 100 < 65535) :
    ((freqGetERPM d port).1 : Int) =
      ⌊roundFloat32 (roundFloat32 ((freqPort d port).freq * 60) / 100)⌋ ∧
    (((freqGetERPM d port).1 : Int) = ⌊(freqPort d port).freq * 60 / 100⌋ ∨
      ((freqGetERPM d port).1 : Int) = ⌊(freqPort d port).freq * 60 / 100⌋ + 1) := by
  have hlo : 0 ≤ ⌊(freqPort d port).freq * 60 / 100⌋ := Int.floor_nonneg.mpr h0
  have hhi : ⌊(freqPort d port).freq * 60 / 100⌋ < 65535 := by
    have : (⌊(freqPort d port).freq * 60 / 100⌋ : ℚ) ≤ (freqPort d port).freq * 60 / 100 :=
      Int.floor_le _
    have h2 : (⌊(freqPort d port).freq * 60 / 100⌋ : ℚ) < ((65535 : Int) : ℚ) := by
      push_cast
      linarith
    exact_mod_cast h2
  obtain ⟨n, hn⟩ : ∃ n : Nat, ⌊(freqPort d port).freq * 60 / 100⌋ = (n : Int) :=
    ⟨⌊(freqPort d port).freq * 60 / 100⌋.toNat, by omega⟩
  have g1 : (n : ℚ) ≤ (freqPort d port).freq * 60 / 100 := by
    have := Int.floor_le ((freqPort d port).freq * 60 / 100)
    rw [hn] at this
    exact_mod_cast this
  have g2 : (freqPort d port).freq * 60 / 100 < (n : ℚ) + 1 := by
    have := Int.lt_floor_add_one ((freqPort d port).freq * 60 / 100)
    rw [hn] at this
    exact_mod_cast this
  obtain ⟨v1, v2⟩ := freqScaled_round_bounds n (by omega) g1 g2
  have w1 : (n : Int) ≤ ⌊roundFloat32 (roundFloat32 ((freqPort d port).freq * 60) / 100)⌋ :=
    Int.le_floor.mpr (by exact_mod_cast v1)
  have w2 : ⌊roundFloat32 (roundFloat32 ((freqPort d port).freq * 60) / 100)⌋ ≤ (n : Int) + 1 := by
    have := Int.floor_le (roundFloat32 (roundFloat32 ((freqPort d port).freq * 60) / 100))
    have h3 : (⌊roundFloat32 (roundFloat32 ((freqPort d port).freq * 60) / 100)⌋ : ℚ) ≤
        (((n : Int) + 1 : Int) : ℚ) := by
      push_cast
      linarith
    exact_mod_cast h3
  have e : (freqGetERPM d port).1 =
      ⌊roundFloat32 (roundFloat32 ((freqPort d port).freq * 60) / 100)⌋.toNat := by
    rw [freqGetERPM_of_lt h, floatToUInt16_eq_floor (le_trans (Nat.cast_nonneg n) v1)
      (by
        have : (n : ℚ) + 1 ≤ 65535 := by
          have : n + 1 ≤ 65535 := by omega
          exact_mod_cast this
        linarith)]
  rw [e, hn]
  constructor
  · omega
  · omega

/-- C15, witness: a reading of 101 Hz gives 60, the floor of 60.6; the binary32 reading
`0x1.aaaaaap+3` gives 8, one more than the floor of its exact scaled value. -/
theorem erpm_truncates_binary32_witness :
    0 < FREQ_SENSOR_PORT_COUNT freqExampleDriver ∧
    (((freqGetERPM freqExampleDriver 0).1 : Int) =
        ⌊(freqPort freqExampleDriver 0).freq * 60 / 100⌋ ∨
      ((freqGetERPM freqExampleDriver 0).1 : Int) =
        ⌊(freqPort freqExampleDriver 0).freq * 60 / 100⌋ + 1) ∧
    (freqGetERPM freqExampleDriver 0).1 = 60 ∧
    (freqGetERPM freqExampleDriverThird 0).1 = 8 ∧
    ⌊(freqPort freqExampleDriverThird 0).freq * 60 / 100⌋ = 7 :=
  ⟨by decide,
    (erpm_truncates_binary32 freqExampleDriver 0 (by decide)
      (by show (0 : ℚ) ≤ (101 : ℚ) * 60 / 100; norm_num)
      (by show (101 : ℚ) * 60 / 100 < 65535; norm_num)).2,
    freqExampleDriver_erpm, freqExampleDriverThird_erpm.1, freqExampleDriverThird_erpm.2⟩

/-! ## Initialisation -/

theorem freqInitPort_none {ta : Nat → Nat → Option TimerHardware} {cfg : FreqConfig}
    (d : FreqDriver) {port : Nat} (h : ta (cfg.ioTag.getD port 0) port = none) :
    freqInitPort ta cfg d port = d := by
  unfold freqInitPort
  dsimp only
  rw [h]

theorem freqInitPort_some {ta : Nat → Nat → Option TimerHardware} {cfg : FreqConfig}
    (d : FreqDriver) {port : Nat} {hw : TimerHardware}
    (h : ta (cfg.ioTag.getD port 0) port = some hw) :
    freqInitPort ta cfg d port =
      { freqTimerInitialized := true,
        freqInputPorts := d.freqInputPorts.set port (freqBaseline hw) } := by
  unfold freqInitPort freqBaseline
  dsimp only
  rw [h]
  dsimp only
  rw [freqReset_eq, freqReset_eq]
  rfl

theorem freqInitPort_count (ta : Nat → Nat → Option TimerHardware) (cfg : FreqConfig)
    (d : FreqDriver) (port : Nat) :
    FREQ_SENSOR_PORT_COUNT (freqInitPort ta cfg d port) = FREQ_SENSOR_PORT_COUNT d := by
  cases h : ta (cfg.ioTag.getD port 0) port with
  | none => rw [freqInitPort_none d h]
  | some hw =>
    rw [freqInitPort_some d h]
    unfold FREQ_SENSOR_PORT_COUNT
    exact List.length_set _ _ _

theorem freqPort_set_ne (d : FreqDriver) (b : Bool) {p q : Nat} (h : p ≠ q)
    (x : FreqInputPort) :
    freqPort { freqTimerInitialized := b, freqInputPorts := d.freqInputPorts.set p x } q =
      freqPort d q := by
  unfold freqPort
  simp [List.getElem?_set_ne h]

theorem freqPort_set_self (d : FreqDriver) (b : Bool) {p : Nat}
    (h : p < FREQ_SENSOR_PORT_COUNT d) (x : FreqInputPort) :
    freqPort { freqTimerInitialized := b, freqInputPorts := d.freqInputPorts.set p x } p =
      x := by
  unfold FREQ_SENSOR_PORT_COUNT at h
  unfold freqPort
  simp [List.getElem?_set_self h]

theorem freqInitPort_port_ne (ta : Nat → Nat → Option TimerHardware) (cfg : FreqConfig)
    (d : FreqDriver) {p q : Nat} (h : p ≠ q) :
    freqPort (freqInitPort ta cfg d p) q = freqPort d q := by
  cases h2 : ta (cfg.ioTag.getD p 0) p with
  | none => rw [freqInitPort_none d h2]
  | some hw => rw [freqInitPort_some d h2, freqPort_set_ne d true h]

theorem freqInitFold_count (ta : Nat → Nat → Option TimerHardware) (cfg : FreqConfig)
    (ps : List Nat) (d : FreqDriver) :
    FREQ_SENSOR_PORT_COUNT (ps.foldl (freqInitPort ta cfg) d) = FREQ_SENSOR_PORT_COUNT d := by
  induction ps generalizing d with
  | nil => rfl
  | cons p ps ih => rw [List.foldl_cons, ih, freqInitPort_count]

theorem freqInitFold_failed (ta : Nat → Nat → Option TimerHardware) (cfg : FreqConfig)
    (ps : List Nat) (d : FreqDriver) {q : Nat}
    (h : (ta (cfg.ioTag.getD q 0) q = none) ∨ q ∉ ps) :
    freqPort (ps.foldl (freqInitPort ta cfg) d) q = freqPort d q := by
  induction ps generalizing d with
  | nil => rfl
  | cons p ps ih =>
    rw [List.foldl_cons, ih]
    · by_cases hpq : p = q
      · subst hpq
        rcases h with h | h
        · rw [freqInitPort_none d h]
        · exact absurd (List.mem_cons_self _ _) h
      · exact freqInitPort_port_ne ta cfg d hpq
    · rcases h with h | h
      · exact Or.inl h
      · exact Or.inr (fun hm => h (List.mem_cons_of_mem _ hm))

theorem freqInitFold_bound (ta : Nat → Nat → Option TimerHardware) (cfg : FreqConfig)
    (ps : List Nat) (d : FreqDriver) {q : Nat} {hw : TimerHardware}
    (h : ta (cfg.ioTag.getD q 0) q = some hw) (hq : q < FREQ_SENSOR_PORT_COUNT d)
    (hm : q ∈ ps) :
    freqPort (ps.foldl (freqInitPort ta cfg) d) q = freqBaseline hw := by
  induction ps generalizing d with
  | nil => exact absurd hm (List.not_mem_nil _)
  | cons p ps ih =>
    rw [List.foldl_cons]
    by_cases hin : q ∈ ps
    · exact ih _ (by rw [freqInitPort_count]; exact hq) hin
    · have hpq : q = p := by
        rcases List.mem_cons.mp hm with e | e
        · exact e
        · exact absurd e hin
      subst hpq
      rw [freqInitFold_failed ta cfg ps _ (Or.inr hin), freqInitPort_some d h,
        freqPort_set_self d true hq]

theorem freqInitFold_flag (ta : Nat → Nat → Option TimerHardware) (cfg : FreqConfig)
    (ps : List Nat) (d : FreqDriver) :
    (ps.foldl (freqInitPort ta cfg) d).freqTimerInitialized = true ↔
      d.freqTimerInitialized = true ∨
        ∃ p : Nat, p ∈ ps ∧ (ta (cfg.ioTag.getD p 0) p).isSome = true := by
  induction ps generalizing d with
  | nil => simp
  | cons p ps ih =>
    rw [List.foldl_cons, ih]
    cases h : ta (cfg.ioTag.getD p 0) p with
    | none =>
      rw [freqInitPort_none d h]
      constructor
      · rintro (h1 | ⟨q, hq, hs⟩)
        · exact Or.inl h1
        · exact Or.inr ⟨q, List.mem_cons_of_mem _ hq, hs⟩
      · rintro (h1 | ⟨q, hq, hs⟩)
        · exact Or.inl h1
        · rcases List.mem_cons.mp hq with e | e
          · subst e
            rw [h] at hs
            exact absurd hs (by simp)
          · exact Or.inr ⟨q, e, hs⟩
    | some hw =>
      rw [freqInitPort_some d h]
      constructor
      · intro _
        exact Or.inr ⟨p, List.mem_cons_self _ _, by rw [h]; rfl⟩
      · intro _
        exact Or.inl rfl

theorem freqDeliverAll_flag (d : FreqDriver) (events : List (Nat × FreqEvent)) :
    (freqDeliverAll d events).freqTimerInitialized = d.freqTimerInitialized := by
  unfold freqDeliverAll
  induction events generalizing d with
  | nil => rfl
  | cons e es ih =>
    rw [List.foldl_cons, ih]
    unfold freqDeliver
    split <;> rfl

/-- C16: starting with the flag false, after `freqInit` the call
`isFreqSensorInitialized()` returns true if and only if `timerAllocate` succeeded for at
least one port; edge and overflow interrupts do not change the flag. -/
theorem initialized_iff_some_port (ta : Nat → Nat → Option TimerHardware) (cfg : FreqConfig)
    (d : FreqDriver) (h : d.freqTimerInitialized = false) :
    ((isFreqSensorInitialized (freqInit ta cfg d)).1 = true ↔
      ∃ port : Nat, port < FREQ_SENSOR_PORT_COUNT d ∧
        (ta (cfg.ioTag.getD port 0) port).isSome = true) ∧
    (∀ events : List (Nat × FreqEvent),
      (isFreqSensorInitialized (freqDeliverAll (freqInit ta cfg d) events)).1 =
        (isFreqSensorInitialized (freqInit ta cfg d)).1) := by
  refine ⟨?_, ?_⟩
  · unfold isFreqSensorInitialized freqInit
    dsimp only
    rw [freqInitFold_flag, h]
    constructor
    · rintro (h1 | ⟨p, hp, hs⟩)
      · exact absurd h1 (by simp)
      · exact ⟨p, List.mem_range.mp hp, hs⟩
    · rintro ⟨p, hp, hs⟩
      exact Or.inr ⟨p, List.mem_range.mpr hp, hs⟩
  · intro events
    unfold isFreqSensorInitialized
    dsimp only
    rw [freqDeliverAll_flag]

/-- C16, witness: two ports, the first without a pin; allocation succeeds for the second
and the flag is set. -/
theorem initialized_iff_some_port_witness :
    (freqDriverZero 2).freqTimerInitialized = false ∧
    (isFreqSensorInitialized
      (freqInit freqExampleAllocate freqExampleConfig (freqDriverZero 2))).1 = true :=
  ⟨rfl,
    (initialized_iff_some_port freqExampleAllocate freqExampleConfig (freqDriverZero 2)
      rfl).1.2 ⟨1, by decide, by decide⟩⟩

theorem freqDeliver_count (d : FreqDriver) (pe : Nat × FreqEvent) :
    FREQ_SENSOR_PORT_COUNT (freqDeliver d pe) = FREQ_SENSOR_PORT_COUNT d := by
  unfold freqDeliver
  split
  · unfold FREQ_SENSOR_PORT_COUNT
    exact List.length_set _ _ _
  · rfl

theorem freqDeliver_port_ne (d : FreqDriver) (pe : Nat × FreqEvent) {q : Nat}
    (h : pe.1 ≠ q) : freqPort (freqDeliver d pe) q = freqPort d q := by
  unfold freqDeliver
  split
  · exact freqPort_set_ne d d.freqTimerInitialized h _
  · rfl

theorem freqDeliverAll_port_ne (d : FreqDriver) (events : List (Nat × FreqEvent)) {q : Nat}
    (h : ∀ pe : Nat × FreqEvent, pe ∈ events → pe.1 ≠ q) :
    freqPort (freqDeliverAll d events) q = freqPort d q ∧
    FREQ_SENSOR_PORT_COUNT (freqDeliverAll d events) = FREQ_SENSOR_PORT_COUNT d := by
  unfold freqDeliverAll
  induction events generalizing d with
  | nil => exact ⟨rfl, rfl⟩
  | cons e es ih =>
    rw [List.foldl_cons]
    obtain ⟨i1, i2⟩ := ih (freqDeliver d e) (fun pe hpe => h pe (List.mem_cons_of_mem _ hpe))
    rw [i1, i2, freqDeliver_port_ne d e (h e (List.mem_cons_self _ _)), freqDeliver_count]
    exact ⟨rfl, rfl⟩

/-- C17: `freqInit` leaves every port whose allocation succeeds in the reset baseline
bound to its timer and every port whose allocation fails as it was; for a port whose
allocation fails (a port without a pin) and whose record is zero-initialised,
`freqRead(port)` returns 0 after `freqInit` and after any interrupts of other ports. -/
theorem init_binds_allocated_ports (ta : Nat → Nat → Option TimerHardware)
    (cfg : FreqConfig) (d : FreqDriver) (port : Nat) (hp : port < FREQ_SENSOR_PORT_COUNT d) :
    (∀ hw : TimerHardware, ta (cfg.ioTag.getD port 0) port = some hw →
      freqPort (freqInit ta cfg d) port = freqBaseline hw) ∧
    (ta (cfg.ioTag.getD port 0) port = none →
      freqPort (freqInit ta cfg d) port = freqPort d port) ∧
    (ta (cfg.ioTag.getD port 0) port = none → (freqPort d port).freq = 0 →
      ∀ events : List (Nat × FreqEvent),
        (∀ pe : Nat × FreqEvent, pe ∈ events → pe.1 ≠ port) →
        (freqRead (freqDeliverAll (freqInit ta cfg d) events) port).1 = 0) := by
  refine ⟨?_, ?_, ?_⟩
  · intro hw h
    unfold freqInit
    exact freqInitFold_bound ta cfg _ d h hp (List.mem_range.mpr hp)
  · intro h
    unfold freqInit
    exact freqInitFold_failed ta cfg _ d (Or.inl h)
  · intro h hz events hev
    obtain ⟨e1, e2⟩ := freqDeliverAll_port_ne (freqInit ta cfg d) events hev
    have e3 : freqPort (freqInit ta cfg d) port = freqPort d port := by
      unfold freqInit
      exact freqInitFold_failed ta cfg _ d (Or.inl h)
    have e4 : FREQ_SENSOR_PORT_COUNT (freqInit ta cfg d) = FREQ_SENSOR_PORT_COUNT d := by
      unfold freqInit
      exact freqInitFold_count ta cfg _ d
    unfold freqRead
    rw [if_pos (by rw [e2, e4]; exact hp)]
    dsimp only
    rw [e1, e3, hz]

/-- C17, witness: of two zero-initialised ports the first has no pin and stays as it
was, the second is bound; the first reads 0 after interrupts of the second. -/
theorem init_binds_allocated_ports_witness :
    0 < FREQ_SENSOR_PORT_COUNT (freqDriverZero 2) ∧
    freqPort (freqInit freqExampleAllocate freqExampleConfig (freqDriverZero 2)) 0 =
      freqBlank none ∧
    (freqRead
      (freqDeliverAll (freqInit freqExampleAllocate freqExampleConfig (freqDriverZero 2))
        [(1, FreqEvent.edge 1000), (1, FreqEvent.edge 9000), (1, FreqEvent.overflow)]) 0).1
      = 0 :=
  ⟨by decide,
    (init_binds_allocated_ports freqExampleAllocate freqExampleConfig (freqDriverZero 2) 0
      (by decide)).2.1 (by decide),
    (init_binds_allocated_ports freqExampleAllocate freqExampleConfig (freqDriverZero 2) 0
      (by decide)).2.2 (by decide) rfl _ (by decide)⟩

/-! ## The prescaler change -/

theorem freqClockInv_reset (s : FreqInputPort) : FreqClockInv (freqReset s) := by
  unfold FreqClockInv
  rw [freqReset_eq]
  norm_num

theorem freqRebase_clock {s : FreqInputPort} (period : Nat) (hp : IsPrescaler s.prescaler)
    (h : FreqClockInv s) : FreqClockInv (freqRebase s period).1 := by
  have b := isPrescaler_bounds hp
  unfold freqRebase FREQ_PRESCALER_MIN FREQ_PRESCALER_MAX
  split
  · rename_i hc
    have e : wrapUInt16 (s.prescaler >>> 1) = s.prescaler >>> 1 := by
      unfold wrapUInt16
      rw [Nat.shiftRight_eq_div_pow]
      omega
    unfold FreqClockInv freqSetBaseClock
    dsimp only
    rw [e]
  · split
    · rename_i hc
      have e : wrapUInt16 (s.prescaler <<< 1) = s.prescaler <<< 1 := by
        unfold wrapUInt16
        rw [Nat.shiftLeft_eq]
        omega
      unfold FreqClockInv freqSetBaseClock
      dsimp only
      rw [e]
    · exact h

theorem freqEdgeCallback_stage {s : FreqInputPort} (t : Nat) (hc : s.capture ≠ 0) :
    (freqEdgeCallback s t).period = (freqEdgeStage s t).1.period ∧
    (freqEdgeCallback s t).prescaler = (freqEdgeStage s t).1.prescaler ∧
    (freqEdgeCallback s t).clock = (freqEdgeStage s t).1.clock ∧
    (freqEdgeCallback s t).timerHardware = (freqEdgeStage s t).1.timerHardware := by
  rw [freqEdgeCallback_of_capture t hc]
  obtain ⟨f1, f2, f3, -, -, -, f7⟩ :=
    freqConditioning_frame (freqEdgeStage s t).1 (freqEdgeStage s t).2
  exact ⟨f1, f2, f3, f7⟩

theorem freqClockInv_edge {s : FreqInputPort} (t : Nat) (hp : IsPrescaler s.prescaler)
    (h : FreqClockInv s) : FreqClockInv (freqEdgeCallback s t) := by
  by_cases hc : s.capture = 0
  · rw [freqEdgeCallback_of_sentinel t hc]
    exact h
  · obtain ⟨-, e2, e3, e4⟩ := freqEdgeCallback_stage t hc
    have := freqRebase_clock (s := freqPeriodFilter s
      (intToUInt16 ((t : Int) - (s.capture : Int))))
      (intToUInt16 ((t : Int) - (s.capture : Int))) hp h
    unfold FreqClockInv at this ⊢
    rw [e2, e3, e4]
    exact this

theorem freqClockInv_overflow {s : FreqInputPort} (h : FreqClockInv s) :
    FreqClockInv (freqOverflowCallback s) := by
  unfold freqOverflowCallback
  dsimp only
  split
  · split
    · have := freqClockInv_reset
        { s with overflows := wrapUInt16 (s.overflows + 1),
                 missing := wrapUInt16 (s.missing + 1) }
      simpa [FreqClockInv] using this
    · simpa [FreqClockInv] using h
  · simpa [FreqClockInv] using h

theorem freqClockInv_run (s : FreqInputPort) (events : List FreqEvent) (hi : FreqInv s)
    (h : FreqClockInv s) : FreqClockInv (freqRun s events) := by
  unfold freqRun
  induction events generalizing s with
  | nil => exact h
  | cons e es ih =>
    rw [List.foldl_cons]
    cases e with
    | edge capture => exact ih _ (freqInv_edge hi capture) (freqClockInv_edge capture hi.1 h)
    | overflow => exact ih _ (freqInv_overflow hi) (freqClockInv_overflow h)

/-- C18: in a state reached from the reset baseline, on an edge with a capture baseline
whose filtered period `p` is below `0x1000` while `prescaler > 1`, the handler halves
`prescaler`, sets `period = 2 * p`, sets `clock = timerClock / prescaler` for the new
prescaler, and passes exactly twice the interval (no wrap-around in 16 bits) to the
window test and the candidate frequency, which equals the old `clock` divided by the
interval. -/
theorem downward_rebase_consistent (s0 : FreqInputPort) (events : List FreqEvent)
    (s : FreqInputPort) (t : Nat) (hs : s = freqRun (freqReset s0) events)
    (hc : s.capture ≠ 0)
    (hlt : (freqPeriodFilter s (intToUInt16 ((t : Int) - (s.capture : Int)))).period <
      FREQ_SHIFT_MIN)
    (hpre : s.prescaler > FREQ_PRESCALER_MIN) :
    (freqEdgeCallback s t).prescaler = s.prescaler / 2 ∧
    (freqEdgeCallback s t).prescaler * 2 = s.prescaler ∧
    (freqEdgeCallback s t).period =
      2 * (freqPeriodFilter s (intToUInt16 ((t : Int) - (s.capture : Int)))).period ∧
    (freqEdgeCallback s t).clock =
      (timerClock s.timerHardware : ℚ) / ((freqEdgeCallback s t).prescaler : ℚ) ∧
    (freqEdgeStage s t).2 = 2 * intToUInt16 ((t : Int) - (s.capture : Int)) ∧
    freqCandidate s t = s.clock / (intToUInt16 ((t : Int) - (s.capture : Int)) : ℚ) ∧
    (freqEdgeCallback s t).freq =
      (freqConditioning (freqEdgeStage s t).1
        (2 * intToUInt16 ((t : Int) - (s.capture : Int)))).freq := by
  have inv : FreqInv s := by
    rw [hs]
    exact freqInv_run (freqReset s0) events (freqInv_reset s0)
  have clk : FreqClockInv s := by
    rw [hs]
    exact freqClockInv_run (freqReset s0) events (freqInv_reset s0) (freqClockInv_reset s0)
  obtain ⟨hp, h1, h2, hlo, -⟩ := inv
  have hi := intToUInt16_lt ((t : Int) - (s.capture : Int))
  have st0 : freqEdgeStage s t =
      freqRebase (freqPeriodFilter s (intToUInt16 ((t : Int) - (s.capture : Int))))
        (intToUInt16 ((t : Int) - (s.capture : Int))) := rfl
  generalize intToUInt16 ((t : Int) - (s.capture : Int)) = i at hlt hi st0 ⊢
  unfold FREQ_PRESCALER_MIN at hpre
  obtain ⟨fe, f1, -, f3⟩ := freqPeriodFilter_period h1 h2 hi
  have hp4 := hlo hpre
  have hlt4 : (freqPeriodFilter s i).period < 4096 := hlt
  have hismall : i < 4300 := by
    rcases tdiv_cases ((i : Int) - s.period) 32 (by decide) with ⟨h, e⟩ | ⟨h, e⟩
    · rw [e] at fe
      omega
    · omega
  obtain ⟨-, hhalf⟩ := isPrescaler_halve hp hpre
  have b := isPrescaler_bounds hp
  have hsh : s.prescaler >>> 1 = s.prescaler / 2 := by
    rw [Nat.shiftRight_eq_div_pow, pow_one]
  have hw : wrapUInt16 (s.prescaler >>> 1) = s.prescaler / 2 := by
    unfold wrapUInt16
    rw [hsh]
    omega
  rw [hw] at hhalf
  have st : freqEdgeStage s t =
      ({ freqSetBaseClock (freqPeriodFilter s i) (s.prescaler >>> 1) with
          period := wrapInt32 ((freqPeriodFilter s i).period * 2) },
        wrapUInt16 (i <<< 1)) := by
    rw [st0]
    unfold freqRebase
    rw [if_pos ⟨hlt, hpre⟩]
    rfl
  unfold FREQ_SHIFT_MIN at hlt
  have st2 : (freqEdgeStage s t).2 = 2 * i := by
    rw [st]
    unfold wrapUInt16
    dsimp only
    rw [Nat.shiftLeft_eq]
    omega
  have stp : (freqEdgeStage s t).1.period = 2 * (freqPeriodFilter s i).period := by
    rw [st]
    dsimp only
    rw [wrapInt32_of_range (by omega) (by omega)]
    omega
  have stq : (freqEdgeStage s t).1.prescaler = s.prescaler / 2 := by
    rw [st]
    exact hw
  have stc : (freqEdgeStage s t).1.clock =
      (timerClock s.timerHardware : ℚ) / ((s.prescaler / 2 : Nat) : ℚ) := by
    rw [st, ← hsh]
    rfl
  obtain ⟨e1, e2, e3, -⟩ := freqEdgeCallback_stage t hc
  have hcand : freqCandidate s t = s.clock / (i : ℚ) := by
    unfold freqCandidate
    unfold FreqClockInv at clk
    rw [stc, st2, clk]
    have hq : (s.prescaler : ℚ) = ((s.prescaler / 2 : Nat) : ℚ) * 2 := by
      exact_mod_cast hhalf.symm
    rw [hq, div_div, div_div]
    push_cast
    ring_nf
  refine ⟨by rw [e2, stq], by rw [e2, stq]; exact hhalf, by rw [e1, stp], ?_, st2, hcand, ?_⟩
  · rw [e3, e2, stq, stc]
  · rw [freqEdgeCallback_freq t hc, st2]

/-- C18, witness: from the reset baseline, 22 edges one tick apart bring the period to
4213; the 23rd filters it to 4082 and halves the prescaler to `0x1000`. -/
theorem downward_rebase_consistent_witness :
    (freqRun (freqReset (freqBlank (some { tim := 1, timerClock := 1000000 })))
      (((List.range 22).map (fun k => k + 1)).map FreqEvent.edge)).capture ≠ 0 ∧
    (freqEdgeCallback
      (freqRun (freqReset (freqBlank (some { tim := 1, timerClock := 1000000 })))
        (((List.range 22).map (fun k => k + 1)).map FreqEvent.edge)) 23).prescaler * 2 =
      (freqRun (freqReset (freqBlank (some { tim := 1, timerClock := 1000000 })))
        (((List.range 22).map (fun k => k + 1)).map FreqEvent.edge)).prescaler ∧
    (freqRun (freqReset (freqBlank (some { tim := 1, timerClock := 1000000 })))
      (((List.range 22).map (fun k => k + 1)).map FreqEvent.edge)).prescaler = 0x2000 := by
  have hC : freqCore (freqRun (freqReset (freqBlank (some { tim := 1, timerClock := 1000000 })))
      (((List.range 22).map (fun k => k + 1)).map FreqEvent.edge)) = (4213, 0x2000, 22) := by
    rw [freqCore_run_edges]
    decide!
  obtain ⟨hper, hpre⟩ := freqCore_fields hC
  have hcap : (freqRun (freqReset (freqBlank (some { tim := 1, timerClock := 1000000 })))
      (((List.range 22).map (fun k => k + 1)).map FreqEvent.edge)).capture = 22 := by
    unfold freqCore at hC
    exact (Prod.mk.inj (Prod.mk.inj hC).2).2
  have hc : (freqRun (freqReset (freqBlank (some { tim := 1, timerClock := 1000000 })))
      (((List.range 22).map (fun k => k + 1)).map FreqEvent.edge)).capture ≠ 0 := by
    rw [hcap]
    decide
  refine ⟨hc, ?_, hpre⟩
  refine (downward_rebase_consistent (freqBlank (some { tim := 1, timerClock := 1000000 }))
    (((List.range 22).map (fun k => k + 1)).map FreqEvent.edge) _ 23 rfl hc ?_ ?_).2.1
  · unfold freqPeriodFilter
    dsimp only
    rw [hper, hcap]
    decide
  · rw [hpre]
    decide

/-- C19: on an edge with a capture baseline whose filtered period `p` exceeds `0x4000`
while `prescaler < 0x2000`, the handler doubles `prescaler`, sets `period = p / 2`,
halves the interval (both rounded down) and sets `clock = timerClock / prescaler` for the
new prescaler; and whatever the edge, the prescaler afterwards is the old one, half of
it or twice it.  The field `prescaler` is a `uint16_t`. -/
theorem upward_rebase_single_step (s : FreqInputPort) (t : Nat) (hty : s.prescaler < 65536) :
    (s.capture ≠ 0 →
      (freqPeriodFilter s (intToUInt16 ((t : Int) - (s.capture : Int)))).period >
        FREQ_SHIFT_MAX →
      s.prescaler < FREQ_PRESCALER_MAX →
      (freqEdgeCallback s t).prescaler = 2 * s.prescaler ∧
      (freqEdgeCallback s t).period =
        (freqPeriodFilter s (intToUInt16 ((t : Int) - (s.capture : Int)))).period / 2 ∧
      (freqEdgeStage s t).2 = intToUInt16 ((t : Int) - (s.capture : Int)) / 2 ∧
      (0 < s.prescaler →
        (freqEdgeCallback s t).clock =
          (timerClock s.timerHardware : ℚ) / ((2 * s.prescaler : Nat) : ℚ))) ∧
    ((freqEdgeCallback s t).prescaler = s.prescaler / 2 ∨
      (freqEdgeCallback s t).prescaler = s.prescaler ∨
      (freqEdgeCallback s t).prescaler = 2 * s.prescaler) := by
  refine ⟨?_, ?_⟩
  · intro hc hgt hpre
    obtain ⟨e1, e2, e3, -⟩ := freqEdgeCallback_stage t hc
    have hsh : s.prescaler <<< 1 = 2 * s.prescaler := by
      rw [Nat.shiftLeft_eq, pow_one, Nat.mul_comm]
    have st : freqEdgeStage s t =
        ({ freqSetBaseClock (freqPeriodFilter s (intToUInt16 ((t : Int) - (s.capture : Int))))
              (s.prescaler <<< 1) with
            period :=
              (freqPeriodFilter s (intToUInt16 ((t : Int) - (s.capture : Int)))).period / 2 },
          intToUInt16 ((t : Int) - (s.capture : Int)) >>> 1) := by
      unfold freqEdgeStage freqRebase
      rw [if_neg (fun h => by
        have h1 := h.1
        unfold FREQ_SHIFT_MIN at h1
        unfold FREQ_SHIFT_MAX at hgt
        omega), if_pos ⟨hgt, hpre⟩]
      rfl
    unfold FREQ_PRESCALER_MAX at hpre
    have hw : wrapUInt16 (s.prescaler <<< 1) = 2 * s.prescaler := by
      unfold wrapUInt16
      rw [hsh]
      omega
    refine ⟨?_, ?_, ?_, ?_⟩
    · rw [e2, st]
      exact hw
    · rw [e1, st]
    · rw [st]
      dsimp only
      rw [Nat.shiftRight_eq_div_pow, pow_one]
    · intro _
      rw [e3, st, ← hsh]
      rfl
  · by_cases hc : s.capture = 0
    · rw [freqEdgeCallback_of_sentinel t hc]
      exact Or.inr (Or.inl rfl)
    · obtain ⟨-, e2, -, -⟩ := freqEdgeCallback_stage t hc
      rw [e2]
      unfold freqEdgeStage freqRebase FREQ_PRESCALER_MAX
      split
      · left
        unfold freqSetBaseClock freqPeriodFilter wrapUInt16
        dsimp only
        rw [Nat.shiftRight_eq_div_pow, pow_one]
        omega
      · split
        · rename_i hup
          right
          right
          have h2 := hup.2
          unfold freqSetBaseClock freqPeriodFilter wrapUInt16
          unfold freqPeriodFilter at h2
          dsimp only at h2 ⊢
          rw [Nat.shiftLeft_eq, pow_one]
          omega
        · exact Or.inr (Or.inl rfl)

/-- C19, witness: with `period = 16400` at prescaler 4, an edge 20000 ticks after the
last filters the period to 16512; the prescaler becomes 8, the period 8256 and the
interval 10000. -/
theorem upward_rebase_single_step_witness :
    freqExampleUp.prescaler < 65536 ∧ freqExampleUp.capture ≠ 0 ∧
    (freqPeriodFilter freqExampleUp
      (intToUInt16 (((20500 : Nat) : Int) - (freqExampleUp.capture : Int)))).period = 16512 ∧
    (freqEdgeCallback freqExampleUp 20500).prescaler = 2 * freqExampleUp.prescaler ∧
    (freqEdgeCallback freqExampleUp 20500).period = 8256 ∧
    (freqEdgeStage freqExampleUp 20500).2 = 10000 := by
  have h := (upward_rebase_single_step freqExampleUp 20500 (by decide)).1 (by decide)
    (by decide) (by decide)
  exact ⟨by decide, by decide, by decide, h.1, by rw [h.2.1]; decide,
    by rw [h.2.2.1]; decide⟩

/-! ## Overflows that do not reset -/

/-- C20: an overflow interrupt that does not reset the channel changes only the
watchdog fields: if the incremented `overflows` is 1 nothing else changes; if it exceeds
1 and `missing + 1 ≤ 4`, then `overflows = 0`, `capture = 0` and `missing` is one more
than before; `freq`, `period`, `prescaler` and `clock` are unchanged whenever
`freqReset` is not called. -/
theorem overflow_bookkeeping_only (s : FreqInputPort) :
    (wrapUInt16 (s.overflows + 1) = 1 →
      freqOverflowCallback s = { s with overflows := 1 }) ∧
    (wrapUInt16 (s.overflows + 1) > 1 → s.missing + 1 ≤ FREQ_MAX_MISSING →
      freqOverflowCallback s =
        { s with overflows := 0, capture := 0, missing := s.missing + 1 }) ∧
    (freqOverflowResets s = false →
      (freqOverflowCallback s).freq = s.freq ∧ (freqOverflowCallback s).period = s.period ∧
      (freqOverflowCallback s).prescaler = s.prescaler ∧
      (freqOverflowCallback s).clock = s.clock) := by
  refine ⟨?_, ?_, ?_⟩
  · intro h
    unfold freqOverflowCallback
    dsimp only
    rw [if_neg (by rw [h]; decide), h]
  · intro h hm
    unfold FREQ_MAX_MISSING at hm
    have e : wrapUInt16 (s.missing + 1) = s.missing + 1 := by
      unfold wrapUInt16
      omega
    unfold freqOverflowCallback
    dsimp only
    rw [if_pos h, e, if_neg (by unfold FREQ_MAX_MISSING; omega)]
  · intro h
    have h2 : ¬ (wrapUInt16 (s.overflows + 1) > 1 ∧
        wrapUInt16 (s.missing + 1) > FREQ_MAX_MISSING) := by
      unfold freqOverflowResets at h
      exact of_decide_eq_false h
    unfold freqOverflowCallback
    dsimp only
    split
    · rename_i h1
      rw [if_neg (fun h3 => h2 ⟨h1, h3⟩)]
      exact ⟨rfl, rfl, rfl, rfl⟩
    · exact ⟨rfl, rfl, rfl, rfl⟩

/-! ## Invariants of the reachable states -/

/-- C21: in every state reached from the reset baseline by edge and overflow interrupts,
`clock = timerClock(tim) / prescaler`, the timer binding being the one of the baseline
(values are exact rationals). -/
theorem clock_matches_prescaler (s0 : FreqInputPort) (events : List FreqEvent) :
    (freqRun (freqReset s0) events).clock =
      (timerClock s0.timerHardware : ℚ) / ((freqRun (freqReset s0) events).prescaler : ℚ) ∧
    (freqRun (freqReset s0) events).timerHardware = s0.timerHardware := by
  have h := freqClockInv_run (freqReset s0) events (freqInv_reset s0) (freqClockInv_reset s0)
  have hw : (freqRun (freqReset s0) events).timerHardware = s0.timerHardware := by
    rw [freqRun_timerHardware, freqReset_eq]
  unfold FreqClockInv at h
  rw [hw] at h
  exact ⟨h, hw⟩

/-- C22: in every state reached from the reset baseline, between handler invocations,
`1 ≤ period ≤ 65535`, `period ≥ 0x1000` if `prescaler > 1`, and `period ≤ 0x4000` if
`prescaler < 0x2000`. -/
theorem period_bounds_reachable (s0 : FreqInputPort) (events : List FreqEvent) :
    1 ≤ (freqRun (freqReset s0) events).period ∧
    (freqRun (freqReset s0) events).period ≤ 65535 ∧
    ((freqRun (freqReset s0) events).prescaler > 1 →
      0x1000 ≤ (freqRun (freqReset s0) events).period) ∧
    ((freqRun (freqReset s0) events).prescaler < 0x2000 →
      (freqRun (freqReset s0) events).period ≤ 0x4000) := by
  have h := freqInv_run (freqReset s0) events (freqInv_reset s0)
  exact h.2

/-! ## The candidate division -/

/-- C23: `freqInputUpdate` reaches the division `clock / period` only with
`period ≥ 1`: for a record whose period keeps `period * 3` within `int32_t` and every
16-bit interval, passing the window test of line 151 implies that the interval (after
any prescaler change) is at least 1; an interval of 0 fails the test whatever the sign
of the period, and the conditioning then leaves the record as it is. -/
theorem candidate_division_nonzero (s : FreqInputPort) (period : Nat)
    (hlo : -0x10000000 ≤ s.period) (hhi : s.period ≤ 0x10000000) (hper : period < 65536) :
    ((((freqRebase (freqPeriodFilter s period) period).2 : Int) >
          FREQ_PERIOD_MIN (freqRebase (freqPeriodFilter s period) period).1.period ∧
        ((freqRebase (freqPeriodFilter s period) period).2 : Int) <
          FREQ_PERIOD_MAX (freqRebase (freqPeriodFilter s period) period).1.period) →
      1 ≤ (freqRebase (freqPeriodFilter s period) period).2) ∧
    ¬ (((0 : Nat) : Int) > FREQ_PERIOD_MIN s.period ∧
        ((0 : Nat) : Int) < FREQ_PERIOD_MAX s.period) ∧
    freqConditioning s 0 = s := by
  obtain ⟨-, b1, b2⟩ := freqPeriodFilter_between hlo hhi hper
  obtain ⟨c1, c2⟩ := freqRebase_period_bound period b1 b2
  have hz : ¬ (((0 : Nat) : Int) > FREQ_PERIOD_MIN s.period ∧
      ((0 : Nat) : Int) < FREQ_PERIOD_MAX s.period) := by
    rw [freq_window_iff 0 (by omega) (by omega)]
    intro h
    omega
  refine ⟨?_, hz, ?_⟩
  · intro hw
    rw [freq_window_iff _ c1 c2] at hw
    omega
  · unfold freqConditioning
    rw [if_neg hz]

/-- C23, witness: a negative period and the interval 32768, which doubling turns into 0. -/
theorem candidate_division_nonzero_witness :
    ¬ (((0 : Nat) : Int) > FREQ_PERIOD_MIN ({ freqExampleRebase with period := -7 } :
          FreqInputPort).period ∧
        ((0 : Nat) : Int) < FREQ_PERIOD_MAX ({ freqExampleRebase with period := -7 } :
          FreqInputPort).period) ∧
    (freqRebase (freqPeriodFilter { freqExampleRebase with period := -7 } 32768) 32768).2 = 0 :=
  ⟨(candidate_division_nonzero { freqExampleRebase with period := -7 } 32768 (by decide)
      (by decide) (by decide)).2.1,
    by decide⟩

/-! ## Sentinel collision -/

/-- C25: an edge whose timestamp is 0 leaves `capture = 0`, the value that stands for
"no prior edge"; the next edge, whatever its timestamp, therefore runs no filter:
`period`, `freq`, `prescaler` and `clock` are unchanged by it and it only records its
timestamp and clears the watchdog counters. -/
theorem zero_timestamp_is_sentinel (s : FreqInputPort) (t : Nat) :
    (freqEdgeCallback s 0).capture = 0 ∧
    freqEdgeCallback (freqEdgeCallback s 0) t =
      { freqEdgeCallback s 0 with capture := wrapUInt16 t, overflows := 0, missing := 0 } ∧
    (freqEdgeCallback (freqEdgeCallback s 0) t).period = (freqEdgeCallback s 0).period ∧
    (freqEdgeCallback (freqEdgeCallback s 0) t).freq = (freqEdgeCallback s 0).freq ∧
    (freqEdgeCallback (freqEdgeCallback s 0) t).prescaler = (freqEdgeCallback s 0).prescaler ∧
    (freqEdgeCallback (freqEdgeCallback s 0) t).clock = (freqEdgeCallback s 0).clock := by
  have h0 : (freqEdgeCallback s 0).capture = 0 := (freqEdgeCallback_bookkeeping s 0).1
  have e := freqEdgeCallback_of_sentinel (s := freqEdgeCallback s 0) t h0
  refine ⟨h0, e, ?_, ?_, ?_, ?_⟩ <;> rw [e]

/-! ## Range of the reading -/

theorem freqRunResets_append (s : FreqInputPort) (l1 l2 : List FreqEvent) :
    freqRunResets s (l1 ++ l2) = (freqRunResets s l1 || freqRunResets (freqRun s l1) l2) := by
  induction l1 generalizing s with
  | nil => simp [freqRunResets, freqRun]
  | cons e es ih =>
    cases e with
    | edge capture =>
      rw [List.cons_append, freqRunResets, freqRunResets, ih]
      rfl
    | overflow =>
      rw [List.cons_append, freqRunResets, freqRunResets, ih, Bool.or_assoc]
      rfl

theorem overflow_run_quiet (s : FreqInputPort) (h1 : s.overflows = 0) (h2 : s.missing = 0)
    (k : Nat) (hk : k ≤ 9) :
    freqRunResets s (List.replicate k FreqEvent.overflow) = false ∧
    (2 ≤ k → (freqRun s (List.replicate k FreqEvent.overflow)).capture = 0) := by
  interval_cases k <;>
    simp [freqRun, freqRunResets, freqOverflowResets, List.replicate, freqDispatch,
      freqOverflowCallback, wrapUInt16, h1, h2, FREQ_MAX_MISSING]

theorem slow_run_held (blocks : List (Nat × Nat)) (m : Nat)
    (hb : ∀ b : Nat × Nat, b ∈ blocks → 2 ≤ b.1 ∧ b.1 ≤ 9) (hm : m ≤ 9)
    (x : FreqInputPort) (h1 : x.overflows = 0) (h2 : x.missing = 0) :
    (freqRun x (freqSlowEvents blocks ++ List.replicate m FreqEvent.overflow)).freq = x.freq ∧
    (freqRun x (freqSlowEvents blocks ++ List.replicate m FreqEvent.overflow)).period
      = x.period ∧
    (freqRun x (freqSlowEvents blocks ++ List.replicate m FreqEvent.overflow)).prescaler
      = x.prescaler ∧
    (freqRun x (freqSlowEvents blocks ++ List.replicate m FreqEvent.overflow)).clock
      = x.clock ∧
    freqRunResets x (freqSlowEvents blocks ++ List.replicate m FreqEvent.overflow) = false := by
  induction blocks generalizing x with
  | nil =>
    obtain ⟨-, -, e3, e4, e5, e6, -⟩ := overflow_run_small x h1 h2 m hm
    obtain ⟨q, -⟩ := overflow_run_quiet x h1 h2 m hm
    exact ⟨e3, e4, e5, e6, q⟩
  | cons b bs ih =>
    obtain ⟨hb2, hb9⟩ := hb b (List.mem_cons_self _ _)
    obtain ⟨-, -, e3, e4, e5, e6, -⟩ := overflow_run_small x h1 h2 b.1 hb9
    obtain ⟨q, qc⟩ := overflow_run_quiet x h1 h2 b.1 hb9
    have hc := qc hb2
    have hedge := freqEdgeCallback_of_sentinel
      (s := freqRun x (List.replicate b.1 FreqEvent.overflow)) b.2 hc
    obtain ⟨-, k1, k2⟩ := freqEdgeCallback_bookkeeping
      (freqRun x (List.replicate b.1 FreqEvent.overflow)) b.2
    obtain ⟨i1, i2, i3, i4, i5⟩ := ih (fun c hcm => hb c (List.mem_cons_of_mem _ hcm))
      (freqEdgeCallback (freqRun x (List.replicate b.1 FreqEvent.overflow)) b.2) k1 k2
    have split : freqSlowEvents (b :: bs) ++ List.replicate m FreqEvent.overflow =
        List.replicate b.1 FreqEvent.overflow ++
          ([FreqEvent.edge b.2] ++
            (freqSlowEvents bs ++ List.replicate m FreqEvent.overflow)) := by
      simp [freqSlowEvents]
    have r1 : freqRun (freqRun x (List.replicate b.1 FreqEvent.overflow))
        [FreqEvent.edge b.2] =
        freqEdgeCallback (freqRun x (List.replicate b.1 FreqEvent.overflow)) b.2 := rfl
    have r2 : freqRunResets (freqRun x (List.replicate b.1 FreqEvent.overflow))
        [FreqEvent.edge b.2] = false := rfl
    rw [split, freqRun_append, freqRun_append, freqRunResets_append, freqRunResets_append,
      r1, r2, q, i1, i2, i3, i4, i5, hedge]
    exact ⟨e3, e4, e5, e6, rfl⟩

/-- C26: after an edge, if every further edge is preceded by at least 2 and at most 9
overflow interrupts (and at most 9 follow the last edge), then `period`, `freq`,
`prescaler` and `clock` keep the value they had after that first edge, and no overflow
interrupt of the sequence calls `freqReset`. -/
theorem slow_signal_held (s : FreqInputPort) (t0 : Nat) (blocks : List (Nat × Nat)) (m : Nat)
    (hb : ∀ b : Nat × Nat, b ∈ blocks → 2 ≤ b.1 ∧ b.1 ≤ 9) (hm : m ≤ 9) :
    (freqRun (freqEdgeCallback s t0)
        (freqSlowEvents blocks ++ List.replicate m FreqEvent.overflow)).freq =
      (freqEdgeCallback s t0).freq ∧
    (freqRun (freqEdgeCallback s t0)
        (freqSlowEvents blocks ++ List.replicate m FreqEvent.overflow)).period =
      (freqEdgeCallback s t0).period ∧
    (freqRun (freqEdgeCallback s t0)
        (freqSlowEvents blocks ++ List.replicate m FreqEvent.overflow)).prescaler =
      (freqEdgeCallback s t0).prescaler ∧
    (freqRun (freqEdgeCallback s t0)
        (freqSlowEvents blocks ++ List.replicate m FreqEvent.overflow)).clock =
      (freqEdgeCallback s t0).clock ∧
    freqRunResets (freqEdgeCallback s t0)
      (freqSlowEvents blocks ++ List.replicate m FreqEvent.overflow) = false := by
  obtain ⟨-, k1, k2⟩ := freqEdgeCallback_bookkeeping s t0
  exact slow_run_held blocks m hb hm (freqEdgeCallback s t0) k1 k2

/-- C26, witness: a channel reading 100 Hz receives an edge, then edges after 2, 9 and 5
overflows and 9 more overflows; the reading is the one after the first edge. -/
theorem slow_signal_held_witness :
    (∀ b : Nat × Nat, b ∈ [(2, 100), (9, 200), (5, 300)] → 2 ≤ b.1 ∧ b.1 ≤ 9) ∧
    (freqRun (freqEdgeCallback freqExampleTracking 10500)
        (freqSlowEvents [(2, 100), (9, 200), (5, 300)] ++
          List.replicate 9 FreqEvent.overflow)).freq =
      (freqEdgeCallback freqExampleTracking 10500).freq ∧
    freqRunResets (freqEdgeCallback freqExampleTracking 10500)
      (freqSlowEvents [(2, 100), (9, 200), (5, 300)] ++
        List.replicate 9 FreqEvent.overflow) = false :=
  ⟨by decide,
    (slow_signal_held freqExampleTracking 10500 [(2, 100), (9, 200), (5, 300)] 9 (by decide)
      (by decide)).1,
    (slow_signal_held freqExampleTracking 10500 [(2, 100), (9, 200), (5, 300)] 9 (by decide)
      (by decide)).2.2.2.2⟩

end Freq

namespace Servos

/-! ## The final clamp of `servoTable` -/

theorem servoConstrainFold_apply (env : ServoEnv) (ps : List Nat) (hn : ps.Nodup)
    (servo : Nat → Int) (i : Nat) :
    (ps.foldl (servoConstrainStep env) servo) i =
      if i ∈ ps then
        wrapInt16 (env.constrain (servo i) (env.servoParams i).min (env.servoParams i).max)
      else servo i := by
  induction ps generalizing servo with
  | nil => simp
  | cons p ps ih =>
    obtain ⟨hp, hps⟩ := List.nodup_cons.mp hn
    rw [List.foldl_cons, ih hps]
    by_cases hip : i = p
    · subst hip
      rw [if_neg hp, if_pos (List.mem_cons_self _ _)]
      unfold servoConstrainStep servoSet
      rw [if_pos rfl]
    · have e : servoConstrainStep env servo p i = servo i := by
        unfold servoConstrainStep servoSet
        rw [if_neg hip]
      rw [e]
      by_cases him : i ∈ ps
      · rw [if_pos him, if_pos (List.mem_cons_of_mem _ him)]
      · rw [if_neg him, if_neg (fun h => by
          rcases List.mem_cons.mp h with h1 | h1
          · exact hip h1
          · exact him h1)]

/-- C27: after `servoTable`, for every index `i < MAX_SUPPORTED_SERVOS` whose limits
satisfy `min ≤ max` (both `int16_t`), `servo[i]` is the clamp of the value computed
before the final loop and lies in `[min, max]`, whatever the mixer and the camera
stabilisation wrote; `constrain` is any function that returns a value between its
bounds when `low ≤ high`. -/
theorem servoTable_within_limits (env : ServoEnv) (servo : Nat → Int) (i : Nat)
    (hi : i < env.MAX_SUPPORTED_SERVOS)
    (hmm : (env.servoParams i).min ≤ (env.servoParams i).max)
    (hmin : -32768 ≤ (env.servoParams i).min) (hmax : (env.servoParams i).max ≤ 32767)
    (hcon : ∀ amt low high : Int, low ≤ high →
      low ≤ env.constrain amt low high ∧ env.constrain amt low high ≤ high) :
    servoTable env servo i =
      env.constrain (servoCameraStabilisation env (env.mixer servo) i)
        (env.servoParams i).min (env.servoParams i).max ∧
    (env.servoParams i).min ≤ servoTable env servo i ∧
    servoTable env servo i ≤ (env.servoParams i).max := by
  obtain ⟨c1, c2⟩ := hcon (servoCameraStabilisation env (env.mixer servo) i)
    (env.servoParams i).min (env.servoParams i).max hmm
  have e : servoTable env servo i =
      env.constrain (servoCameraStabilisation env (env.mixer servo) i)
        (env.servoParams i).min (env.servoParams i).max := by
    unfold servoTable
    rw [servoConstrainFold_apply env _ (List.nodup_range _), if_pos (List.mem_range.mpr hi)]
    unfold wrapInt16
    omega
  rw [e]
  exact ⟨rfl, c1, c2⟩

/-- C27, witness: the mixer leaves 5000 in entry 3 and the camera stabilisation writes
entries 0 and 1; after `servoTable` entry 3 is 2000 and entry 0 is within the limits. -/
theorem servoTable_within_limits_witness :
    (3 < servoExampleEnv.MAX_SUPPORTED_SERVOS ∧
      (servoExampleEnv.servoParams 3).min ≤ (servoExampleEnv.servoParams 3).max) ∧
    servoTable servoExampleEnv (fun _ => 0) 3 = 2000 ∧
    (servoExampleEnv.servoParams 0).min ≤ servoTable servoExampleEnv (fun _ => 0) 0 ∧
    servoTable servoExampleEnv (fun _ => 0) 0 ≤ (servoExampleEnv.servoParams 0).max := by
  have hcon : ∀ amt low high : Int, low ≤ high →
      low ≤ servoExampleEnv.constrain amt low high ∧
        servoExampleEnv.constrain amt low high ≤ high := by
    intro amt low high h
    show low ≤ (if amt < low then low else if amt > high then high else amt) ∧
      (if amt < low then low else if amt > high then high else amt) ≤ high
    split
    · exact ⟨le_refl _, h⟩
    · split <;> constructor <;> omega
  have h3 := servoTable_within_limits servoExampleEnv (fun _ => 0) 3 (by decide) (by decide)
    (by decide) (by decide) hcon
  have h0 := servoTable_within_limits servoExampleEnv (fun _ => 0) 0 (by decide) (by decide)
    (by decide) (by decide) hcon
  refine ⟨⟨by decide, by decide⟩, ?_, h0.2.1, h0.2.2⟩
  rw [h3.1]
  decide

end Servos
